import Mathlib

/-!
# Muduo/Buffer.cpp : index management of the growable byte buffer

A shallow embedding of `src/Muduo/Buffer.cpp`.

Conventions of the embedding.

* A `char` is a `Byte` (a number below 256); a block of memory is a `List Byte`
  whose length is the size of the block.
* `size_t` values are natural numbers.  Every size that occurs is the length of a
  block that exists in memory, and an allocation that succeeds is taken to deliver
  a block of exactly the requested length.  The one sum whose operand a caller
  chooses freely, `capacity_ + n` in `bufferExpandByest` reached through
  `ensureWriteBytes(n)`, is also given in 64-bit `size_t` arithmetic
  (`bufferExpandByestSizeT`, `ensureWriteBytesSizeT`).
* `memcpy` and `memmove` are checked: a copy that would leave the source or the
  destination block has undefined behaviour in C and is `none` here.  Every
  function that copies therefore returns an `Option`; `some` means that the call
  ran to completion inside its blocks.
* `malloc` returning `NULL` is a Boolean argument `mallocOk` wherever the source
  tests the returned pointer.
* The system calls `readv` and `write` are described by the value they return,
  the bytes they transfer and the value they leave in `errno`.
-/

namespace Muduo

/-- One `char` of storage. -/
abbrev Byte := Fin 256

/-- Modelled from the spec: the struct `Buffer` is declared in `Buffer.h`, which
is not part of the sources at hand.  The spec's data model lists one owned
contiguous byte region (`storage`), its allocated size (`capacity`), the fixed
head reservation (`head_reserve`) and the two cursors (`read_index`,
`write_index`); the field names are the ones `Buffer.cpp` uses. -/
structure Buffer where
  buffer_ : List Byte
  capacity_ : Nat
  headSpace_ : Nat
  readIndex_ : Nat
  writeIndex_ : Nat
deriving DecidableEq

/-- A block of `n` bytes right after `memset(p, 0x00, n)`. -/
def zeroed (n : Nat) : List Byte := List.replicate n 0

/-- The call `memcpy(dst + dOff, src + sOff, n)`: the new contents of the
destination block, or `none` when the copy would run outside either block. -/
def memcpy (dst : List Byte) (dOff : Nat) (src : List Byte) (sOff n : Nat) :
    Option (List Byte) :=
  if dOff + n ≤ dst.length ∧ sOff + n ≤ src.length then
    some (dst.take dOff ++ (src.drop sOff).take n ++ dst.drop (dOff + n))
  else
    none

/-- The call `memmove(mem + dOff, mem + sOff, n)` inside one block: the source
bytes are read as they were before the call, also when the ranges overlap. -/
def memmove (mem : List Byte) (dOff sOff n : Nat) : Option (List Byte) :=
  memcpy mem dOff mem sOff n

/-- `bufferInit` (Buffer.cpp:12-46).  `bufOk` and `storageOk` say whether the
two `malloc` calls return a block; on `NULL` the function returns `NULL`. -/
def bufferInit (bufOk storageOk : Bool) (headSize bodySize : Int) : Option Buffer :=
  if !bufOk then none
  else
    let headSpace := headSize.toNat
    let capacity := (headSize + bodySize).toNat
    if !storageOk then none
    else
      some { buffer_ := zeroed capacity
             capacity_ := capacity
             headSpace_ := headSpace
             readIndex_ := headSize.toNat
             writeIndex_ := headSize.toNat }

/-- `bufferReadableBytes` (Buffer.cpp:62-65). -/
def bufferReadableBytes (buf : Buffer) : Nat :=
  buf.writeIndex_ - buf.readIndex_

/-- `bufferWriteableBytes` (Buffer.cpp:67-70). -/
def bufferWriteableBytes (buf : Buffer) : Nat :=
  buf.capacity_ - buf.writeIndex_

/-- `bufferPrependBytes` (Buffer.cpp:72-75). -/
def bufferPrependBytes (buf : Buffer) : Nat :=
  buf.readIndex_ - buf.headSpace_

/-- `bufferExpandByest` (Buffer.cpp:77-97).  Modelled from the spec: when the
allocation fails the source calls `errorPrint(true, ...)` of `MyError.h`, which
is not part of the sources at hand; the spec calls an allocation failure during
growth fatal (process-terminating), so there is no state afterwards. -/
def bufferExpandByest (mallocOk : Bool) (n : Nat) (buf : Buffer) : Option Buffer :=
  let newCapacity := buf.capacity_ + n
  if !mallocOk then none
  else do
    let newBuf ← memcpy (zeroed newCapacity) 0 buf.buffer_ 0 buf.capacity_
    some { buf with buffer_ := newBuf, capacity_ := newCapacity }

/-- `ensureWriteBytes` (Buffer.cpp:99-115). -/
def ensureWriteBytes (mallocOk : Bool) (len : Nat) (buf : Buffer) : Option Buffer :=
  if bufferPrependBytes buf + bufferWriteableBytes buf < len then
    bufferExpandByest mallocOk (len - bufferWriteableBytes buf) buf
  else do
    let mem ← memmove buf.buffer_ buf.headSpace_ buf.readIndex_
      (buf.writeIndex_ - buf.readIndex_)
    let buf1 := { buf with buffer_ := mem }
    let buf2 := { buf1 with writeIndex_ := buf1.writeIndex_ - bufferPrependBytes buf1 }
    some { buf2 with readIndex_ := buf2.headSpace_ }

/-- `bufferAppend` (Buffer.cpp:117-122); `data` is the block the pointer
argument points into. -/
def bufferAppend (mallocOk : Bool) (data : List Byte) (dataLen : Nat) (buf : Buffer) :
    Option Buffer := do
  let buf1 ← ensureWriteBytes mallocOk dataLen buf
  let mem ← memcpy buf1.buffer_ buf1.writeIndex_ data 0 dataLen
  some { buf1 with buffer_ := mem, writeIndex_ := buf1.writeIndex_ + dataLen }

/-- `bufferRetrieveAll` (Buffer.cpp:124-127). -/
def bufferRetrieveAll (buf : Buffer) : Buffer :=
  { buf with writeIndex_ := buf.headSpace_, readIndex_ := buf.headSpace_ }

/-- `bufferRetrieveAllAsString` (Buffer.cpp:129-137): the returned block and the
buffer afterwards.  The source does not test the result of this `malloc`. -/
def bufferRetrieveAllAsString (buf : Buffer) : Option (List Byte × Buffer) := do
  let len := bufferReadableBytes buf + 1
  let result ← memcpy (zeroed len) 0 buf.buffer_ buf.readIndex_ (bufferReadableBytes buf)
  some (result, bufferRetrieveAll buf)

/-- `bufferRetrieve` (Buffer.cpp:139-149). -/
def bufferRetrieve (n : Nat) (buf : Buffer) : Buffer :=
  if n ≥ bufferReadableBytes buf then
    bufferRetrieveAll buf
  else
    { buf with readIndex_ := buf.readIndex_ + n }

/-- `bufferRetrieveAsString` (Buffer.cpp:151-166): the returned block and the
buffer afterwards. -/
def bufferRetrieveAsString (n : Nat) (buf : Buffer) : Option (List Byte × Buffer) :=
  if n ≥ bufferReadableBytes buf then
    bufferRetrieveAllAsString buf
  else do
    let msg ← memcpy (zeroed (n + 1)) 0 buf.buffer_ buf.readIndex_ n
    some (msg, bufferRetrieve n buf)

/-- What one `readv` or `write` system call does: the value it returns, the
bytes it transfers (in order) and the value of `errno` after it. -/
structure SysCall where
  ret : Int
  bytes : List Byte
  errno : Int
deriving DecidableEq

/-- Modelled from the spec: the scatter-read primitive `readv` (`sys/uio.h`),
"given a descriptor and an ordered list of (pointer, length) destinations, reads
into them in order and returns total bytes read or an error".  The first
destination is `mem + off0` of length `len0`, the second is `tempBuf` of length
`len1`, and `vecCnt` of them are offered.  A call that returns `ret ≤ 0` stores
nothing.  A call that returns `ret > 0` delivers exactly `ret` bytes, at most
the total length offered (anything else is not a behaviour of `readv`:
`none`), the first destination being filled before the second. -/
def readv (sys : SysCall) (mem : List Byte) (off0 len0 : Nat) (tempBuf : List Byte)
    (len1 : Nat) (vecCnt : Nat) : Option (Int × List Byte × List Byte) :=
  if sys.ret ≤ 0 then some (sys.ret, mem, tempBuf)
  else
    let n := sys.ret.toNat
    let offered := len0 + (if vecCnt = 2 then len1 else 0)
    if sys.bytes.length = n ∧ n ≤ offered then do
      let mem1 ← memcpy mem off0 sys.bytes 0 (min n len0)
      let tempBuf1 ← memcpy tempBuf 0 sys.bytes (min n len0) (n - len0)
      some (sys.ret, mem1, tempBuf1)
    else
      none

/-- The result of `bufferReadFd` and `bufferWriteFd`: the returned count, the
value of `*errorNum` and the buffer afterwards. -/
structure FdResult where
  ret : Int
  errorNum : Int
  buf : Buffer
deriving DecidableEq

/-- The destination count `vecCnt` that `bufferReadFd` passes to `readv`
(Buffer.cpp:179). -/
def readFdVecCnt (buf : Buffer) : Nat :=
  if buf.writeIndex_ > 65536 then 1 else 2

/-- `bufferReadFd` (Buffer.cpp:168-207).  `sys` is what the `readv` call does,
`errorNum` the value of `*errorNum` before the call. -/
def bufferReadFd (mallocOk : Bool) (sys : SysCall) (buf : Buffer) (errorNum : Int) :
    Option FdResult := do
  let tempBuf := zeroed 65536
  let vecCnt := readFdVecCnt buf
  let (n, mem, tempBuf) ←
    readv sys buf.buffer_ buf.writeIndex_ (bufferWriteableBytes buf) tempBuf 65536 vecCnt
  let buf := { buf with buffer_ := mem }
  if n ≤ 0 then
    some { ret := -1, errorNum := sys.errno, buf := buf }
  else if n.toNat < bufferWriteableBytes buf then
    some { ret := n, errorNum := errorNum,
           buf := { buf with writeIndex_ := buf.writeIndex_ + n.toNat } }
  else do
    let tempLen := n.toNat - bufferWriteableBytes buf
    let buf1 := { buf with writeIndex_ := buf.capacity_ }
    let buf2 ← bufferAppend mallocOk tempBuf tempLen buf1
    some { ret := n, errorNum := errorNum, buf := buf2 }

/-- `bufferWriteFd` (Buffer.cpp:209-230).  `sys.ret` is what the `write` call
returns when offered the readable region; a `write` stores nothing in the
buffer.  Modelled from the spec: on `n ≤ 0` the source calls
`errorPrint(true, ...)` of `MyError.h`, which is not part of the sources at
hand, and then returns -1; the spec has a failed write reported to the caller,
so the call prints and returns here. -/
def bufferWriteFd (sys : SysCall) (buf : Buffer) (errorNum : Int) : FdResult :=
  let n := sys.ret
  if n ≤ 0 then
    { ret := -1, errorNum := sys.errno, buf := buf }
  else
    { ret := n, errorNum := errorNum, buf := bufferRetrieve n.toNat buf }

/-! ## Specification vocabulary -/

/-- The index invariant `headSpace_ ≤ readIndex_ ≤ writeIndex_ ≤ capacity_`. -/
def Buffer.IndexInv (buf : Buffer) : Prop :=
  buf.headSpace_ ≤ buf.readIndex_ ∧ buf.readIndex_ ≤ buf.writeIndex_ ∧
    buf.writeIndex_ ≤ buf.capacity_

instance (buf : Buffer) : Decidable buf.IndexInv := by
  unfold Buffer.IndexInv; infer_instance

/-- The field `buffer_` points to a block of `capacity_` bytes. -/
def Buffer.Allocated (buf : Buffer) : Prop :=
  buf.buffer_.length = buf.capacity_

instance (buf : Buffer) : Decidable buf.Allocated := by
  unfold Buffer.Allocated; infer_instance

/-- The readable byte sequence `buffer_[readIndex_ .. writeIndex_)`. -/
def Buffer.readable (buf : Buffer) : List Byte :=
  (buf.buffer_.drop buf.readIndex_).take (buf.writeIndex_ - buf.readIndex_)

/-- The total length of the destinations `bufferReadFd` offers to `readv`: the
writable region, and the 65536-byte scratch block when `vecCnt` is 2. -/
def readFdOffered (buf : Buffer) : Nat :=
  bufferWriteableBytes buf + (if readFdVecCnt buf = 2 then 65536 else 0)

/-- The compaction branch of `ensureWriteBytes`: the readable bytes moved down
to `headSpace_`. -/
def compacted (buf : Buffer) : Buffer :=
  { buffer_ := buf.buffer_.take buf.headSpace_
      ++ (buf.buffer_.drop buf.readIndex_).take (buf.writeIndex_ - buf.readIndex_)
      ++ buf.buffer_.drop (buf.headSpace_ + (buf.writeIndex_ - buf.readIndex_))
    capacity_ := buf.capacity_
    headSpace_ := buf.headSpace_
    readIndex_ := buf.headSpace_
    writeIndex_ := buf.writeIndex_ - (buf.readIndex_ - buf.headSpace_) }

/-- The growth branch of `ensureWriteBytes`, allocation succeeding. -/
def grown (n : Nat) (buf : Buffer) : Buffer :=
  { buf with buffer_ := buf.buffer_ ++ zeroed n, capacity_ := buf.capacity_ + n }

/-- One call of the sequences of claim C1: `bufferAppend(data, len(data))` with
the allocation succeeding, or `bufferRetrieve(n)`. -/
inductive Op where
  | append (data : List Byte)
  | retrieve (n : Nat)
deriving DecidableEq

/-- Run one call. -/
def Op.apply : Op → Buffer → Option Buffer
  | Op.append data, buf => bufferAppend true data data.length buf
  | Op.retrieve n, buf => some (bufferRetrieve n buf)

/-- Run a sequence of calls in order; the result lists the buffer after every
call, first call first. -/
def runOps : List Op → Buffer → Option (List Buffer)
  | [], _ => some []
  | op :: ops, buf => do
    let b ← op.apply buf
    let rest ← runOps ops b
    some (b :: rest)

/-- The buffer `bufferInit(0, 4)` after one byte `1` was appended: one readable
byte, three writable ones. -/
def oneByteBuf : Buffer :=
  { buffer_ := [1, 0, 0, 0], capacity_ := 4, headSpace_ := 0, readIndex_ := 0,
    writeIndex_ := 1 }

/-- A buffer with head reservation 2 holding the readable bytes `5, 6, 7` at
offsets 3 to 5: one prependable byte, two writable ones. -/
def threeByteBuf : Buffer :=
  { buffer_ := [0, 0, 9, 5, 6, 7, 0, 0], capacity_ := 8, headSpace_ := 2, readIndex_ := 3,
    writeIndex_ := 6 }

/-- A `readv` call that reports end of file: no byte, return value 0. -/
def eofCall : SysCall :=
  { ret := 0, bytes := [], errno := 11 }

/-- A `readv` call that delivers the four bytes `1, 2, 3, 4`. -/
def fourByteCall : SysCall :=
  { ret := 4, bytes := [1, 2, 3, 4], errno := 0 }

/-- A `readv` call that delivers the two bytes `1, 2`. -/
def twoByteCall : SysCall :=
  { ret := 2, bytes := [1, 2], errno := 0 }

/-- A `write` call that fails: return value -1, `errno` 32. -/
def failedWrite : SysCall :=
  { ret := -1, bytes := [], errno := 32 }

/-- A `write` call that takes only the two bytes `5, 6`. -/
def shortWrite : SysCall :=
  { ret := 2, bytes := [5, 6], errno := 0 }

/-- The buffer `bufferInit(0, 70000)` returns: empty, 70000 writable bytes. -/
def wideBuf : Buffer :=
  { buffer_ := zeroed 70000, capacity_ := 70000, headSpace_ := 0, readIndex_ := 0,
    writeIndex_ := 0 }

/-- A buffer of 65537 bytes that is full: `bufferInit(0, 65537)` after 65537 zero
bytes were appended.  No writable byte is left. -/
def fullBuf : Buffer :=
  { buffer_ := zeroed 65537, capacity_ := 65537, headSpace_ := 0, readIndex_ := 0,
    writeIndex_ := 65537 }

/-- The calls `bufferAppend(d1, len(d1))`, ..., `bufferAppend(dk, len(dk))` in
that order, every allocation succeeding. -/
def bufferAppendAll : List (List Byte) → Buffer → Option Buffer
  | [], buf => some buf
  | d :: ds, buf => do
    let buf1 ← bufferAppend true d d.length buf
    bufferAppendAll ds buf1

/-- The number of values of a 64-bit `size_t`: `SIZE_MAX + 1`. -/
def sizeModulus : Nat := 2 ^ 64

/-- The largest `size_t` value, `SIZE_MAX`. -/
def sizeMax : Nat := sizeModulus - 1

/-- `bufferExpandByest` (Buffer.cpp:77-97) with the sum `buf->capacity_ + n` of
line 79 taken in `size_t`: it wraps at `SIZE_MAX`.  `malloc` then returns a
block of the wrapped size, and the `memcpy` of line 93 still copies the old
`capacity_` bytes into it.  An allocation failure is as in
`bufferExpandByest`. -/
def bufferExpandByestSizeT (mallocOk : Bool) (n : Nat) (buf : Buffer) : Option Buffer :=
  let newCapacity := (buf.capacity_ + n) % sizeModulus
  if !mallocOk then none
  else do
    let newBuf ← memcpy (zeroed newCapacity) 0 buf.buffer_ 0 buf.capacity_
    some { buf with buffer_ := newBuf, capacity_ := newCapacity }

/-- `ensureWriteBytes` (Buffer.cpp:99-115) for a freely chosen `size_t` argument
`len`: the growth branch calls `bufferExpandByestSizeT`.  The other sums and
differences of the function are bounded by `capacity_` and `len` under the
index invariant. -/
def ensureWriteBytesSizeT (mallocOk : Bool) (len : Nat) (buf : Buffer) : Option Buffer :=
  if bufferPrependBytes buf + bufferWriteableBytes buf < len then
    bufferExpandByestSizeT mallocOk (len - bufferWriteableBytes buf) buf
  else do
    let mem ← memmove buf.buffer_ buf.headSpace_ buf.readIndex_
      (buf.writeIndex_ - buf.readIndex_)
    let buf1 := { buf with buffer_ := mem }
    let buf2 := { buf1 with writeIndex_ := buf1.writeIndex_ - bufferPrependBytes buf1 }
    some { buf2 with readIndex_ := buf2.headSpace_ }

/-! ## Memory lemmas -/

theorem zeroed_length (n : Nat) : (zeroed n).length = n := by
  simp [zeroed]

theorem memcpy_in_bounds (dst : List Byte) (dOff : Nat) (src : List Byte) (sOff n : Nat)
    (hd : dOff + n ≤ dst.length) (hs : sOff + n ≤ src.length) :
    memcpy dst dOff src sOff n
      = some (dst.take dOff ++ (src.drop sOff).take n ++ dst.drop (dOff + n)) := by
  simp [memcpy, hd, hs]

/-- The middle piece of a three-part block, read back by offset and length. -/
theorem take_drop_middle (A B C : List Byte) (a b : Nat) (ha : A.length = a)
    (hb : B.length = b) : ((A ++ B ++ C).drop a).take b = B := by
  subst ha hb
  simp [List.append_assoc, List.drop_left, List.take_left]

/-- Length of the block written by an in-bounds copy. -/
theorem length_copy (dst src : List Byte) (dOff sOff n : Nat)
    (hd : dOff + n ≤ dst.length) (hs : sOff + n ≤ src.length) :
    (dst.take dOff ++ (src.drop sOff).take n ++ dst.drop (dOff + n)).length
      = dst.length := by
  simp only [List.length_append, List.length_take, List.length_drop]
  omega

/-! ## ensureWriteBytes -/

/-- The growth branch of `ensureWriteBytes`: the old block followed by `n` zero
bytes. -/
theorem bufferExpandByest_ok (n : Nat) (buf : Buffer) (ha : buf.Allocated) :
    bufferExpandByest true n buf
      = some { buf with buffer_ := buf.buffer_ ++ zeroed n,
                        capacity_ := buf.capacity_ + n } := by
  unfold Buffer.Allocated at ha
  have hz : (zeroed (buf.capacity_ + n)).length = buf.capacity_ + n := zeroed_length _
  have hcopy := memcpy_in_bounds (zeroed (buf.capacity_ + n)) 0 buf.buffer_ 0 buf.capacity_
    (by omega) (by omega)
  have hblock : List.take 0 (zeroed (buf.capacity_ + n))
      ++ List.take buf.capacity_ (List.drop 0 buf.buffer_)
      ++ List.drop (0 + buf.capacity_) (zeroed (buf.capacity_ + n))
      = buf.buffer_ ++ zeroed n := by
    have h1 : List.take buf.capacity_ buf.buffer_ = buf.buffer_ :=
      List.take_of_length_le (by omega)
    simp [zeroed, h1]
  simp only [bufferExpandByest, hcopy, hblock]
  rfl

theorem ensureWriteBytes_grow (n : Nat) (buf : Buffer) (ha : buf.Allocated)
    (hg : bufferPrependBytes buf + bufferWriteableBytes buf < n) :
    ensureWriteBytes true n buf = some (grown (n - bufferWriteableBytes buf) buf) := by
  simp only [ensureWriteBytes, hg, if_true]
  exact bufferExpandByest_ok _ buf ha

theorem ensureWriteBytes_compact (n : Nat) (buf : Buffer) (hi : buf.IndexInv)
    (ha : buf.Allocated) (mallocOk : Bool)
    (hg : ¬ bufferPrependBytes buf + bufferWriteableBytes buf < n) :
    ensureWriteBytes mallocOk n buf = some (compacted buf) := by
  obtain ⟨h1, h2, h3⟩ := hi
  have hlen : buf.buffer_.length = buf.capacity_ := ha
  have hcopy := memcpy_in_bounds buf.buffer_ buf.headSpace_ buf.buffer_ buf.readIndex_
    (buf.writeIndex_ - buf.readIndex_) (by omega) (by omega)
  simp only [ensureWriteBytes, hg, if_false, memmove, hcopy]
  rfl

theorem grown_readable (n : Nat) (buf : Buffer) (hi : buf.IndexInv) (ha : buf.Allocated) :
    (grown n buf).readable = buf.readable := by
  obtain ⟨h1, h2, h3⟩ := hi
  have hlen : buf.buffer_.length = buf.capacity_ := ha
  show List.take (buf.writeIndex_ - buf.readIndex_)
    (List.drop buf.readIndex_ (buf.buffer_ ++ zeroed n)) = _
  unfold Buffer.readable
  rw [List.drop_append_of_le_length (by omega), List.take_append_of_le_length]
  simp only [List.length_drop]
  omega

theorem compacted_readable (buf : Buffer) (hi : buf.IndexInv) (ha : buf.Allocated) :
    (compacted buf).readable = buf.readable := by
  obtain ⟨h1, h2, h3⟩ := hi
  have hlen : buf.buffer_.length = buf.capacity_ := ha
  have hk : buf.writeIndex_ - (buf.readIndex_ - buf.headSpace_) - buf.headSpace_
      = buf.writeIndex_ - buf.readIndex_ := by omega
  unfold Buffer.readable compacted
  simp only [hk]
  apply take_drop_middle
  · simp only [List.length_take]
    omega
  · simp only [List.length_take, List.length_drop]
    omega

theorem compacted_allocated (buf : Buffer) (hi : buf.IndexInv) (ha : buf.Allocated) :
    (compacted buf).Allocated := by
  obtain ⟨h1, h2, h3⟩ := hi
  have hlen : buf.buffer_.length = buf.capacity_ := ha
  exact (length_copy buf.buffer_ buf.buffer_ buf.headSpace_ buf.readIndex_
    (buf.writeIndex_ - buf.readIndex_) (by omega) (by omega)).trans hlen

/-- What `ensureWriteBytes` returns when the allocation succeeds. -/
theorem ensureWriteBytes_ok (n : Nat) (buf : Buffer) (hi : buf.IndexInv)
    (ha : buf.Allocated) :
    ∃ buf1, ensureWriteBytes true n buf = some buf1 ∧ buf1.IndexInv ∧ buf1.Allocated ∧
      n ≤ bufferWriteableBytes buf1 ∧ buf1.readable = buf.readable ∧
      buf1.headSpace_ = buf.headSpace_ := by
  have hi0 := hi
  obtain ⟨h1, h2, h3⟩ := hi
  have hlen : buf.buffer_.length = buf.capacity_ := ha
  by_cases hg : bufferPrependBytes buf + bufferWriteableBytes buf < n
  · refine ⟨grown (n - bufferWriteableBytes buf) buf, ensureWriteBytes_grow n buf ha hg,
      ?_, ?_, ?_, grown_readable _ buf hi0 ha, rfl⟩
    · exact ⟨h1, h2, by show buf.writeIndex_ ≤ buf.capacity_ + _; omega⟩
    · show (buf.buffer_ ++ zeroed _).length = buf.capacity_ + _
      simp [zeroed_length, hlen]
    · simp only [bufferWriteableBytes, bufferPrependBytes, grown] at hg ⊢
      omega
  · refine ⟨compacted buf, ensureWriteBytes_compact n buf hi0 ha true hg, ?_,
      compacted_allocated buf hi0 ha, ?_, compacted_readable buf hi0 ha, rfl⟩
    · refine ⟨Nat.le_refl _, ?_, ?_⟩
      · show buf.headSpace_ ≤ buf.writeIndex_ - (buf.readIndex_ - buf.headSpace_)
        omega
      · show buf.writeIndex_ - (buf.readIndex_ - buf.headSpace_) ≤ buf.capacity_
        omega
    · simp only [bufferWriteableBytes, bufferPrependBytes, compacted] at hg ⊢
      omega

/-! ## bufferAppend -/

/-- Reading `[r, w + k)` back after `k` bytes were stored at offset `w`. -/
theorem readable_after_store (mem D : List Byte) (r w k : Nat) (hrw : r ≤ w)
    (hw : w + k ≤ mem.length) (hD : D.length = k) :
    List.take (w + k - r) (List.drop r (mem.take w ++ D ++ mem.drop (w + k)))
      = List.take (w - r) (List.drop r mem) ++ D := by
  have hX : (List.drop r (mem.take w)).length = w - r := by
    simp only [List.length_drop, List.length_take]
    omega
  rw [List.append_assoc, List.drop_append_of_le_length (by simp only [List.length_take]; omega),
    ← List.append_assoc, List.drop_take]
  apply List.take_left'
  rw [List.length_append, ← List.drop_take, hX, hD]
  omega

/-- What `bufferAppend` returns when the allocation succeeds and `data` holds at
least `dataLen` bytes. -/
theorem bufferAppend_ok (data : List Byte) (dataLen : Nat) (buf : Buffer)
    (hi : buf.IndexInv) (ha : buf.Allocated) (hd : dataLen ≤ data.length) :
    ∃ buf2, bufferAppend true data dataLen buf = some buf2 ∧ buf2.IndexInv ∧
      buf2.Allocated ∧ buf2.readable = buf.readable ++ data.take dataLen ∧
      buf2.headSpace_ = buf.headSpace_ := by
  obtain ⟨buf1, he, ⟨i1, i2, i3⟩, ha1, hw1, hr1, hh1⟩ := ensureWriteBytes_ok dataLen buf hi ha
  have hlen : buf1.buffer_.length = buf1.capacity_ := ha1
  have hw : buf1.writeIndex_ + dataLen ≤ buf1.buffer_.length := by
    simp only [bufferWriteableBytes] at hw1
    omega
  have hcopy := memcpy_in_bounds buf1.buffer_ buf1.writeIndex_ data 0 dataLen hw (by omega)
  refine ⟨{ buf1 with
      buffer_ := buf1.buffer_.take buf1.writeIndex_ ++ (data.drop 0).take dataLen
        ++ buf1.buffer_.drop (buf1.writeIndex_ + dataLen)
      writeIndex_ := buf1.writeIndex_ + dataLen }, ?_, ?_, ?_, ?_, hh1⟩
  · simp only [bufferAppend, he, Option.bind_eq_bind, Option.some_bind, hcopy]
  · exact ⟨i1, by show buf1.readIndex_ ≤ buf1.writeIndex_ + dataLen; omega,
      by show buf1.writeIndex_ + dataLen ≤ buf1.capacity_; omega⟩
  · exact (length_copy buf1.buffer_ data buf1.writeIndex_ 0 dataLen hw (by omega)).trans hlen
  · rw [← hr1]
    have hD : ((data.drop 0).take dataLen).length = dataLen := by
      simp only [List.drop_zero, List.length_take]
      omega
    have := readable_after_store buf1.buffer_ ((data.drop 0).take dataLen) buf1.readIndex_
      buf1.writeIndex_ dataLen i2 hw hD
    simpa only [Buffer.readable, List.drop_zero] using this

/-! ## bufferRetrieve and the owned copies -/

theorem bufferRetrieve_indexInv (n : Nat) (buf : Buffer) (hi : buf.IndexInv) :
    (bufferRetrieve n buf).IndexInv := by
  obtain ⟨h1, h2, h3⟩ := hi
  unfold bufferRetrieve
  split
  · exact ⟨Nat.le_refl _, Nat.le_refl _, by show buf.headSpace_ ≤ buf.capacity_; omega⟩
  · rename_i hn
    simp only [bufferReadableBytes] at hn
    exact ⟨by show buf.headSpace_ ≤ buf.readIndex_ + n; omega,
      by show buf.readIndex_ + n ≤ buf.writeIndex_; omega, h3⟩

theorem bufferRetrieve_allocated (n : Nat) (buf : Buffer) (ha : buf.Allocated) :
    (bufferRetrieve n buf).Allocated := by
  unfold bufferRetrieve
  split <;> exact ha

/-- The block `bufferRetrieveAllAsString` returns: the readable bytes and one
terminating zero byte. -/
theorem bufferRetrieveAllAsString_ok (buf : Buffer) (hi : buf.IndexInv)
    (ha : buf.Allocated) :
    bufferRetrieveAllAsString buf = some (buf.readable ++ [0], bufferRetrieveAll buf) := by
  obtain ⟨h1, h2, h3⟩ := hi
  have hlen : buf.buffer_.length = buf.capacity_ := ha
  have hz : (zeroed (bufferReadableBytes buf + 1)).length = bufferReadableBytes buf + 1 :=
    zeroed_length _
  have hcopy := memcpy_in_bounds (zeroed (bufferReadableBytes buf + 1)) 0 buf.buffer_
    buf.readIndex_ (bufferReadableBytes buf) (by omega)
    (by simp only [bufferReadableBytes]; omega)
  simp only [bufferRetrieveAllAsString, hcopy]
  simp [zeroed, Buffer.readable, bufferReadableBytes, List.drop_replicate]

/-- The block `bufferRetrieveAsString` returns when fewer bytes are asked for
than are readable. -/
theorem bufferRetrieveAsString_lt (n : Nat) (buf : Buffer) (hi : buf.IndexInv)
    (ha : buf.Allocated) (hn : n < bufferReadableBytes buf) :
    bufferRetrieveAsString n buf = some (buf.readable.take n ++ [0], bufferRetrieve n buf) := by
  obtain ⟨h1, h2, h3⟩ := hi
  have hlen : buf.buffer_.length = buf.capacity_ := ha
  have hz : (zeroed (n + 1)).length = n + 1 := zeroed_length _
  have hn2 : ¬ n ≥ bufferReadableBytes buf := by omega
  simp only [bufferReadableBytes] at hn
  have hcopy := memcpy_in_bounds (zeroed (n + 1)) 0 buf.buffer_ buf.readIndex_ n (by omega)
    (by omega)
  simp only [bufferRetrieveAsString, hn2, if_false, hcopy]
  have hmin : min n (buf.writeIndex_ - buf.readIndex_) = n := by omega
  simp [zeroed, Buffer.readable, List.drop_replicate, List.take_take, hmin]

theorem readable_length (buf : Buffer) (hi : buf.IndexInv) (ha : buf.Allocated) :
    buf.readable.length = bufferReadableBytes buf := by
  obtain ⟨h1, h2, h3⟩ := hi
  have hlen : buf.buffer_.length = buf.capacity_ := ha
  simp only [Buffer.readable, bufferReadableBytes, List.length_take, List.length_drop]
  omega

/-- The block and the state `bufferRetrieveAsString` returns, in both branches. -/
theorem bufferRetrieveAsString_ok (n : Nat) (buf : Buffer) (hi : buf.IndexInv)
    (ha : buf.Allocated) :
    bufferRetrieveAsString n buf = some (buf.readable.take n ++ [0], bufferRetrieve n buf) := by
  by_cases hn : n < bufferReadableBytes buf
  · exact bufferRetrieveAsString_lt n buf hi ha hn
  · have hge : n ≥ bufferReadableBytes buf := by omega
    have hfull : buf.readable.take n = buf.readable :=
      List.take_of_length_le (by rw [readable_length buf hi ha]; exact hge)
    simp only [bufferRetrieveAsString, bufferRetrieve, hge, if_true, hfull]
    exact bufferRetrieveAllAsString_ok buf hi ha

theorem bufferRetrieve_readable (n : Nat) (buf : Buffer) (hi : buf.IndexInv)
    (ha : buf.Allocated) :
    (bufferRetrieve n buf).readable = buf.readable.drop (min n (bufferReadableBytes buf)) := by
  have hl := readable_length buf hi ha
  obtain ⟨h1, h2, h3⟩ := hi
  by_cases hn : n ≥ bufferReadableBytes buf
  · have hmin : min n (bufferReadableBytes buf) = bufferReadableBytes buf := by omega
    rw [hmin, List.drop_of_length_le (by omega)]
    simp [bufferRetrieve, hn, bufferRetrieveAll, Buffer.readable]
  · have hmin : min n (bufferReadableBytes buf) = n := by omega
    simp only [bufferReadableBytes] at hn
    rw [hmin]
    simp only [bufferRetrieve, bufferReadableBytes, hn, if_false, Buffer.readable,
      List.drop_take, List.drop_drop]
    congr 1
    omega

theorem bufferInit_ok (headSize bodySize : Int) (hh : 0 ≤ headSize) (hb : 0 ≤ bodySize) :
    ∃ buf, bufferInit true true headSize bodySize = some buf ∧ buf.IndexInv ∧
      buf.Allocated ∧ (buf.headSpace_ : Int) = headSize ∧
      (buf.capacity_ : Int) = headSize + bodySize := by
  refine ⟨_, rfl, ⟨Nat.le_refl _, Nat.le_refl _, ?_⟩, zeroed_length _, ?_, ?_⟩
  · show headSize.toNat ≤ (headSize + bodySize).toNat
    omega
  · show ((headSize.toNat : Nat) : Int) = headSize
    omega
  · show (((headSize + bodySize).toNat : Nat) : Int) = headSize + bodySize
    omega

/-- Every run of calls from a well-formed buffer completes and keeps the index
invariant after every call. -/
theorem runOps_ok (ops : List Op) :
    ∀ buf : Buffer, buf.IndexInv → buf.Allocated →
      ∃ trace, runOps ops buf = some trace ∧ trace.length = ops.length ∧
        ∀ b ∈ trace, b.IndexInv := by
  induction ops with
  | nil =>
    intro buf _ _
    exact ⟨[], rfl, rfl, by simp⟩
  | cons op ops ih =>
    intro buf hi ha
    have hstep : ∃ b, op.apply buf = some b ∧ b.IndexInv ∧ b.Allocated := by
      cases op with
      | append data =>
        obtain ⟨b, hb, hbi, hba, _, _⟩ :=
          bufferAppend_ok data data.length buf hi ha (Nat.le_refl _)
        exact ⟨b, hb, hbi, hba⟩
      | retrieve n =>
        exact ⟨_, rfl, bufferRetrieve_indexInv n buf hi, bufferRetrieve_allocated n buf ha⟩
    obtain ⟨b, hb, hbi, hba⟩ := hstep
    obtain ⟨rest, hrest, hlen, hall⟩ := ih b hbi hba
    refine ⟨b :: rest, ?_, by simp [hlen], ?_⟩
    · simp only [runOps, hb, hrest, Option.bind_eq_bind, Option.some_bind]
    · intro x hx
      rcases List.mem_cons.mp hx with rfl | hx
      · exact hbi
      · exact hall x hx

/-! ## bufferReadFd -/

/-- What a successful `readv` stores: the first `len0` bytes delivered go to the
first destination, the rest to the start of the scratch block. -/
theorem readv_ok (sys : SysCall) (mem : List Byte) (off0 len0 : Nat)
    (tempBuf : List Byte) (len1 vecCnt : Nat) (hpos : 0 < sys.ret)
    (hbytes : sys.bytes.length = sys.ret.toNat)
    (hfit : sys.bytes.length ≤ len0 + (if vecCnt = 2 then len1 else 0))
    (hmem : off0 + len0 ≤ mem.length) (htemp : len1 ≤ tempBuf.length) :
    readv sys mem off0 len0 tempBuf len1 vecCnt
      = some (sys.ret,
          mem.take off0 ++ sys.bytes.take len0 ++ mem.drop (off0 + min sys.bytes.length len0),
          sys.bytes.drop len0 ++ tempBuf.drop (sys.bytes.length - len0)) := by
  have hnot : ¬ sys.ret ≤ 0 := by omega
  have hscratch : sys.bytes.length - len0 ≤ len1 := by
    split at hfit <;> omega
  have hc1 := memcpy_in_bounds mem off0 sys.bytes 0 (min sys.bytes.length len0)
    (by omega) (by omega)
  have hc2 := memcpy_in_bounds tempBuf 0 sys.bytes (min sys.bytes.length len0)
    (sys.bytes.length - len0) (by omega) (by omega)
  have ht1 : List.take (min sys.bytes.length len0) sys.bytes = List.take len0 sys.bytes := by
    rw [Nat.min_comm, ← List.take_take, List.take_length]
  have ht2 : List.take (sys.bytes.length - len0)
      (List.drop (min sys.bytes.length len0) sys.bytes) = List.drop len0 sys.bytes := by
    by_cases hle : sys.bytes.length ≤ len0
    · rw [List.drop_of_length_le (l := sys.bytes) (i := len0) hle]
      simp [Nat.sub_eq_zero_of_le hle]
    · have hm : min sys.bytes.length len0 = len0 := by omega
      rw [hm]
      exact List.take_of_length_le (by simp only [List.length_drop]; omega)
  simp only [readv, hnot, if_false, ← hbytes, hfit, and_self, if_true, hc1, hc2,
    Option.bind_eq_bind, Option.some_bind, List.drop_zero, List.take_zero, List.nil_append,
    Nat.zero_add, ht1, ht2]

/-- What `bufferReadFd` returns on a successful read, allocation succeeding. -/
theorem bufferReadFd_ok (sys : SysCall) (buf : Buffer) (errorNum : Int)
    (hi : buf.IndexInv) (ha : buf.Allocated) (hpos : 0 < sys.ret)
    (hbytes : sys.bytes.length = sys.ret.toNat)
    (hfit : sys.bytes.length ≤ readFdOffered buf) :
    ∃ buf2, bufferReadFd true sys buf errorNum
        = some { ret := sys.ret, errorNum := errorNum, buf := buf2 } ∧
      buf2.IndexInv ∧ buf2.Allocated ∧ buf2.readable = buf.readable ++ sys.bytes ∧
      buf2.headSpace_ = buf.headSpace_ := by
  have hi0 := hi
  obtain ⟨h1, h2, h3⟩ := hi
  have hlen : buf.buffer_.length = buf.capacity_ := ha
  have hnot : ¬ sys.ret ≤ 0 := by omega
  have hrv := readv_ok sys buf.buffer_ buf.writeIndex_ (bufferWriteableBytes buf)
    (zeroed 65536) 65536 (readFdVecCnt buf) hpos hbytes hfit
    (by simp only [bufferWriteableBytes]; omega) (by rw [zeroed_length])
  simp only [bufferReadFd, hrv, Option.bind_eq_bind, Option.some_bind, hnot, if_false,
    ← hbytes]
  by_cases hsmall : sys.bytes.length < bufferWriteableBytes buf
  · simp only [bufferWriteableBytes] at hsmall
    have hmin : min sys.bytes.length (buf.capacity_ - buf.writeIndex_) = sys.bytes.length := by
      omega
    have htake : List.take (buf.capacity_ - buf.writeIndex_) sys.bytes = sys.bytes :=
      List.take_of_length_le (by omega)
    simp only [bufferWriteableBytes, hsmall, if_true, hmin, htake]
    refine ⟨_, rfl, ⟨h1, by show buf.readIndex_ ≤ buf.writeIndex_ + _; omega,
      by show buf.writeIndex_ + _ ≤ buf.capacity_; omega⟩, ?_, ?_, rfl⟩
    · show List.length _ = buf.capacity_
      simp only [List.length_append, List.length_take, List.length_drop]
      omega
    · exact readable_after_store buf.buffer_ sys.bytes buf.readIndex_ buf.writeIndex_
        sys.bytes.length h2 (by omega) rfl
  · simp only [bufferWriteableBytes] at hsmall
    have hmin : min sys.bytes.length (buf.capacity_ - buf.writeIndex_)
        = buf.capacity_ - buf.writeIndex_ := by omega
    have hk : (List.take (buf.capacity_ - buf.writeIndex_) sys.bytes).length
        = buf.capacity_ - buf.writeIndex_ := by
      simp only [List.length_take]
      omega
    have hfull : buf.writeIndex_ + (buf.capacity_ - buf.writeIndex_) ≤ buf.buffer_.length := by
      omega
    simp only [bufferWriteableBytes, hsmall, if_false, hmin]
    obtain ⟨buf2, happ, hi2, ha2, hr2, hh2⟩ := bufferAppend_ok
      (List.drop (buf.capacity_ - buf.writeIndex_) sys.bytes
        ++ List.drop (sys.bytes.length - (buf.capacity_ - buf.writeIndex_)) (zeroed 65536))
      (sys.bytes.length - (buf.capacity_ - buf.writeIndex_))
      { buffer_ := List.take buf.writeIndex_ buf.buffer_
          ++ List.take (buf.capacity_ - buf.writeIndex_) sys.bytes
          ++ List.drop (buf.writeIndex_ + (buf.capacity_ - buf.writeIndex_)) buf.buffer_
        capacity_ := buf.capacity_
        headSpace_ := buf.headSpace_
        readIndex_ := buf.readIndex_
        writeIndex_ := buf.capacity_ }
      ⟨h1, by show buf.readIndex_ ≤ buf.capacity_; omega, Nat.le_refl _⟩
      (by
        show List.length _ = buf.capacity_
        simp only [List.length_append, List.length_take, List.length_drop]
        omega)
      (by simp only [List.length_append, List.length_drop]; omega)
    refine ⟨buf2, ?_, hi2, ha2, ?_, hh2⟩
    · simp only [happ, Option.some_bind]
    · rw [hr2, List.take_left' (by simp only [List.length_drop])]
      have hstore := readable_after_store buf.buffer_
        (List.take (buf.capacity_ - buf.writeIndex_) sys.bytes) buf.readIndex_
        buf.writeIndex_ (buf.capacity_ - buf.writeIndex_) h2 hfull hk
      have hcap : buf.writeIndex_ + (buf.capacity_ - buf.writeIndex_) = buf.capacity_ := by
        omega
      rw [hcap] at hstore
      show List.take (buf.capacity_ - buf.readIndex_) (List.drop buf.readIndex_ _) ++ _ = _
      rw [hcap, hstore, List.append_assoc, List.take_append_drop]
      rfl

/-! ## Indices after bufferAppend -/

/-- The indices `bufferAppend` leaves, by branch of `ensureWriteBytes`, together
with what `bufferAppend_ok` says. -/
theorem bufferAppend_indices (data : List Byte) (dataLen : Nat) (buf : Buffer)
    (hi : buf.IndexInv) (ha : buf.Allocated) (hd : dataLen ≤ data.length) :
    ∃ buf2, bufferAppend true data dataLen buf = some buf2 ∧ buf2.IndexInv ∧
      buf2.Allocated ∧ buf2.readable = buf.readable ++ data.take dataLen ∧
      buf2.headSpace_ = buf.headSpace_ ∧
      (bufferPrependBytes buf + bufferWriteableBytes buf < dataLen →
        buf2.capacity_ = buf.capacity_ + (dataLen - bufferWriteableBytes buf) ∧
        buf2.readIndex_ = buf.readIndex_ ∧
        buf2.writeIndex_ = buf.writeIndex_ + dataLen) ∧
      (¬ bufferPrependBytes buf + bufferWriteableBytes buf < dataLen →
        buf2.capacity_ = buf.capacity_ ∧
        buf2.readIndex_ = buf.headSpace_ ∧
        buf2.writeIndex_ = buf.writeIndex_ - bufferPrependBytes buf + dataLen) := by
  obtain ⟨buf2, happ, hi2, ha2, hr2, hh2⟩ := bufferAppend_ok data dataLen buf hi ha hd
  refine ⟨buf2, happ, hi2, ha2, hr2, hh2, ?_, ?_⟩
  · intro hg
    have he := ensureWriteBytes_grow dataLen buf ha hg
    simp only [bufferAppend, he, Option.bind_eq_bind, Option.some_bind,
      Option.bind_eq_some] at happ
    obtain ⟨mem, _, hbuf⟩ := happ
    have hbuf2 := Option.some.inj hbuf
    subst hbuf2
    exact ⟨rfl, rfl, rfl⟩
  · intro hg
    have he := ensureWriteBytes_compact dataLen buf hi ha true hg
    simp only [bufferAppend, he, Option.bind_eq_bind, Option.some_bind,
      Option.bind_eq_some] at happ
    obtain ⟨mem, _, hbuf⟩ := happ
    have hbuf2 := Option.some.inj hbuf
    subst hbuf2
    exact ⟨rfl, rfl, rfl⟩

/-! ## bufferReadFd at and below the writable byte count -/

/-- A read of fewer bytes than are writable only advances `writeIndex_`. -/
theorem bufferReadFd_below_writable (sys : SysCall) (buf : Buffer) (errorNum : Int)
    (hi : buf.IndexInv) (ha : buf.Allocated) (hpos : 0 < sys.ret)
    (hbytes : sys.bytes.length = sys.ret.toNat)
    (hlt : sys.bytes.length < bufferWriteableBytes buf) :
    ∃ buf2, bufferReadFd true sys buf errorNum
        = some { ret := sys.ret, errorNum := errorNum, buf := buf2 } ∧
      buf2.writeIndex_ = buf.writeIndex_ + sys.bytes.length ∧
      buf2.readIndex_ = buf.readIndex_ ∧
      buf2.capacity_ = buf.capacity_ := by
  obtain ⟨h1, h2, h3⟩ := hi
  have hlen : buf.buffer_.length = buf.capacity_ := ha
  have hnot : ¬ sys.ret ≤ 0 := by omega
  have hfit : sys.bytes.length ≤ readFdOffered buf := by
    unfold readFdOffered
    omega
  have hrv := readv_ok sys buf.buffer_ buf.writeIndex_ (bufferWriteableBytes buf)
    (zeroed 65536) 65536 (readFdVecCnt buf) hpos hbytes hfit
    (by simp only [bufferWriteableBytes]; omega) (by rw [zeroed_length])
  simp only [bufferReadFd, hrv, Option.bind_eq_bind, Option.some_bind, hnot, if_false,
    ← hbytes]
  simp only [bufferWriteableBytes] at hlt
  simp only [bufferWriteableBytes, hlt, if_true]
  exact ⟨_, rfl, rfl, rfl, rfl⟩

/-- A read of exactly as many bytes as are writable takes the last branch of
`bufferReadFd`: `writeIndex_` is set to `capacity_` and the append of the zero
remaining bytes compacts the buffer. -/
theorem bufferReadFd_exact_fill (sys : SysCall) (buf : Buffer) (errorNum : Int)
    (hi : buf.IndexInv) (ha : buf.Allocated) (hpos : 0 < sys.ret)
    (hbytes : sys.bytes.length = sys.ret.toNat)
    (hfill : sys.bytes.length = bufferWriteableBytes buf) :
    ∃ buf2, bufferReadFd true sys buf errorNum
        = some { ret := sys.ret, errorNum := errorNum, buf := buf2 } ∧
      buf2.capacity_ = buf.capacity_ ∧
      buf2.readIndex_ = buf.headSpace_ ∧
      buf2.writeIndex_ = buf.capacity_ - bufferPrependBytes buf ∧
      buf2.readable = buf.readable ++ sys.bytes := by
  have hfit : sys.bytes.length ≤ readFdOffered buf := by
    unfold readFdOffered
    omega
  obtain ⟨buf2, hrun, -, -, hr, -⟩ := bufferReadFd_ok sys buf errorNum hi ha hpos hbytes hfit
  refine ⟨buf2, hrun, ?_⟩
  obtain ⟨h1, h2, h3⟩ := hi
  have hlen : buf.buffer_.length = buf.capacity_ := ha
  have hnot : ¬ sys.ret ≤ 0 := by omega
  have hrv := readv_ok sys buf.buffer_ buf.writeIndex_ (bufferWriteableBytes buf)
    (zeroed 65536) 65536 (readFdVecCnt buf) hpos hbytes hfit
    (by simp only [bufferWriteableBytes]; omega) (by rw [zeroed_length])
  simp only [bufferWriteableBytes] at hfill
  have hsmall : ¬ sys.bytes.length < buf.capacity_ - buf.writeIndex_ := by omega
  simp only [bufferReadFd, hrv, Option.bind_eq_bind, Option.some_bind, hnot, if_false,
    ← hbytes] at hrun
  simp only [bufferWriteableBytes, hsmall, if_false] at hrun
  obtain ⟨b3, happ, -, -, -, -, -, hc⟩ := bufferAppend_indices
    (List.drop (buf.capacity_ - buf.writeIndex_) sys.bytes
      ++ List.drop (sys.bytes.length - (buf.capacity_ - buf.writeIndex_)) (zeroed 65536))
    (sys.bytes.length - (buf.capacity_ - buf.writeIndex_))
    { buffer_ := List.take buf.writeIndex_ buf.buffer_
        ++ List.take (buf.capacity_ - buf.writeIndex_) sys.bytes
        ++ List.drop (buf.writeIndex_
            + min sys.bytes.length (buf.capacity_ - buf.writeIndex_)) buf.buffer_
      capacity_ := buf.capacity_
      headSpace_ := buf.headSpace_
      readIndex_ := buf.readIndex_
      writeIndex_ := buf.capacity_ }
    ⟨h1, by show buf.readIndex_ ≤ buf.capacity_; omega, Nat.le_refl _⟩
    (by
      show List.length _ = buf.capacity_
      simp only [List.length_append, List.length_take, List.length_drop]
      omega)
    (by simp only [List.length_append, List.length_drop]; omega)
  obtain ⟨hcap, hrd, hwr⟩ := hc (by omega)
  rw [happ] at hrun
  simp only [Option.some_bind, Option.some.injEq, FdResult.mk.injEq, true_and] at hrun
  subst hrun
  refine ⟨hcap, hrd, ?_, hr⟩
  rw [hwr]
  show buf.capacity_ - (buf.readIndex_ - buf.headSpace_)
    + (sys.bytes.length - (buf.capacity_ - buf.writeIndex_)) = _
  simp only [bufferPrependBytes]
  omega

/-! ## Runs of appends -/

/-- A run of appends completes, keeps the buffer well formed and extends the
readable sequence by the appended sequences in order. -/
theorem bufferAppendAll_ok (ds : List (List Byte)) :
    ∀ buf : Buffer, buf.IndexInv → buf.Allocated →
      ∃ buf1, bufferAppendAll ds buf = some buf1 ∧ buf1.IndexInv ∧ buf1.Allocated ∧
        buf1.readable = buf.readable ++ ds.flatten ∧
        buf1.headSpace_ = buf.headSpace_ := by
  induction ds with
  | nil =>
    intro buf hi ha
    exact ⟨buf, rfl, hi, ha, by simp, rfl⟩
  | cons d ds ih =>
    intro buf hi ha
    obtain ⟨b, hb, hbi, hba, hbr, hbh⟩ :=
      bufferAppend_ok d d.length buf hi ha (Nat.le_refl _)
    rw [List.take_length] at hbr
    obtain ⟨buf1, hrun, hi1, ha1, hr1, hh1⟩ := ih b hbi hba
    refine ⟨buf1, ?_, hi1, ha1, ?_, hh1.trans hbh⟩
    · simp only [bufferAppendAll, hb, Option.bind_eq_bind, Option.some_bind, hrun]
    · rw [hr1, hbr, List.flatten_cons, List.append_assoc]

/-! ## The destinations offered to readv -/

theorem readFdVecCnt_eq_one (buf : Buffer) :
    readFdVecCnt buf = 1 ↔ 65536 < buf.writeIndex_ := by
  unfold readFdVecCnt
  split <;> simp_all

theorem fullBuf_allocated : fullBuf.Allocated :=
  zeroed_length 65537

theorem wideBuf_allocated : wideBuf.Allocated :=
  zeroed_length 70000

/-- Two buffers with equal fields are equal. -/
theorem buffer_eq_of_fields (a b : Buffer) (h1 : a.buffer_ = b.buffer_)
    (h2 : a.capacity_ = b.capacity_) (h3 : a.headSpace_ = b.headSpace_)
    (h4 : a.readIndex_ = b.readIndex_) (h5 : a.writeIndex_ = b.writeIndex_) : a = b := by
  cases a
  cases b
  simp_all

/-- The full buffer is what `bufferInit(0, 65537)` and an append of 65537 zero
bytes produce. -/
theorem fullBuf_reachable :
    ∃ b0, bufferInit true true 0 65537 = some b0 ∧
      bufferAppend true (zeroed 65537) 65537 b0 = some fullBuf := by
  have hi0 : (Buffer.mk (zeroed 65537) 65537 0 0 0).IndexInv := by decide
  have ha0 : (Buffer.mk (zeroed 65537) 65537 0 0 0).Allocated := zeroed_length _
  obtain ⟨b, happ, -, ha, hr, hh, -, hc⟩ := bufferAppend_indices (zeroed 65537) 65537
    (Buffer.mk (zeroed 65537) 65537 0 0 0) hi0 ha0 (by rw [zeroed_length])
  obtain ⟨hcap, hrd, hwr⟩ := hc (by decide)
  have hcap : b.capacity_ = 65537 := hcap
  have hrd : b.readIndex_ = 0 := hrd
  have hwr : b.writeIndex_ = 65537 := hwr
  have hh : b.headSpace_ = 0 := hh
  have hlen : b.buffer_.length = 65537 := ha.trans hcap
  have hmem : b.buffer_ = zeroed 65537 := by
    have h1 : b.readable = b.buffer_ := by
      unfold Buffer.readable
      rw [hrd, hwr, List.drop_zero]
      exact List.take_of_length_le (by omega)
    have h2 : (Buffer.mk (zeroed 65537) 65537 0 0 0).readable = [] := rfl
    rw [h1, h2, List.nil_append] at hr
    rw [hr]
    exact List.take_of_length_le (by rw [zeroed_length])
  refine ⟨Buffer.mk (zeroed 65537) 65537 0 0 0, rfl, ?_⟩
  rw [happ]
  exact congrArg some (buffer_eq_of_fields b fullBuf hmem hcap hh hrd hwr)

/-- Under the index invariant `readv` is offered no byte exactly when the buffer
is full and `writeIndex_` exceeds 65536. -/
theorem readFdOffered_eq_zero (buf : Buffer) (hi : buf.IndexInv) :
    readFdOffered buf = 0 ↔ 65536 < buf.writeIndex_ ∧ buf.writeIndex_ = buf.capacity_ := by
  obtain ⟨_, _, h3⟩ := hi
  unfold readFdOffered readFdVecCnt bufferWriteableBytes
  split <;> simp <;> omega

/-- On the full buffer `readv` is offered no byte, so no call can deliver one. -/
theorem bufferReadFd_fullBuf_positive (sys : SysCall) (errorNum : Int)
    (hpos : 0 < sys.ret) : bufferReadFd true sys fullBuf errorNum = none := by
  have hnot : ¬ sys.ret ≤ 0 := by omega
  have hn : ¬ sys.ret.toNat ≤ 0 := by omega
  have hw : bufferWriteableBytes fullBuf = 0 := by decide
  have hv : readFdVecCnt fullBuf = 1 := by decide
  simp [bufferReadFd, readv, hnot, hw, hv, hn]

/-! ## ensureWriteBytes in size_t arithmetic -/

/-- While the sum of Buffer.cpp:79 does not wrap, the `size_t` growth is the
growth over the natural numbers. -/
theorem bufferExpandByestSizeT_eq (mallocOk : Bool) (n : Nat) (buf : Buffer)
    (hfit : buf.capacity_ + n ≤ sizeMax) :
    bufferExpandByestSizeT mallocOk n buf = bufferExpandByest mallocOk n buf := by
  have hmod : (buf.capacity_ + n) % sizeModulus = buf.capacity_ + n := by
    apply Nat.mod_eq_of_lt
    simp only [sizeMax, sizeModulus] at hfit ⊢
    omega
  simp only [bufferExpandByestSizeT, bufferExpandByest, hmod]

/-- While the growth branch, if taken, does not wrap, `ensureWriteBytesSizeT` is
`ensureWriteBytes`. -/
theorem ensureWriteBytesSizeT_eq (mallocOk : Bool) (n : Nat) (buf : Buffer)
    (hfit : bufferPrependBytes buf + bufferWriteableBytes buf < n →
      buf.capacity_ + (n - bufferWriteableBytes buf) ≤ sizeMax) :
    ensureWriteBytesSizeT mallocOk n buf = ensureWriteBytes mallocOk n buf := by
  unfold ensureWriteBytesSizeT ensureWriteBytes
  split
  · rename_i hg
    exact bufferExpandByestSizeT_eq mallocOk _ buf (hfit hg)
  · rfl

/-! ## The claims -/

/-- C1: for `headSize ≥ 0` and `bodySize ≥ 0`, `bufferInit` (allocation
succeeding) returns a buffer with `headSpace_ ≤ readIndex_ ≤ writeIndex_ ≤
capacity_`, and every finite sequence of `bufferAppend` and `bufferRetrieve`
calls applied to it runs to completion with that invariant holding after every
call. -/
theorem C1_index_invariant_after_every_call (headSize bodySize : Int)
    (hh : 0 ≤ headSize) (hb : 0 ≤ bodySize) (ops : List Op) :
    ∃ buf trace, bufferInit true true headSize bodySize = some buf ∧ buf.IndexInv ∧
      runOps ops buf = some trace ∧ trace.length = ops.length ∧
      ∀ b ∈ trace, b.IndexInv := by
  obtain ⟨buf, hinit, hi, ha, _, _⟩ := bufferInit_ok headSize bodySize hh hb
  obtain ⟨trace, hrun, hlen, hall⟩ := runOps_ok ops buf hi ha
  exact ⟨buf, trace, hinit, hi, hrun, hlen, hall⟩

/-- Witness of C1 at `bufferInit(8, 16)` followed by an append of ten bytes, a
retrieve of five and an append of twelve. -/
theorem C1_index_invariant_after_every_call_witness :
    ∃ buf trace, bufferInit true true 8 16 = some buf ∧ buf.IndexInv ∧
      runOps [Op.append [1, 2, 3, 4, 5, 6, 7, 8, 9, 10], Op.retrieve 5,
        Op.append [11, 12, 13, 14, 15, 16, 17, 18, 19, 20, 21, 22]] buf = some trace ∧
      trace.length = [Op.append [1, 2, 3, 4, 5, 6, 7, 8, 9, 10], Op.retrieve 5,
        Op.append [11, 12, 13, 14, 15, 16, 17, 18, 19, 20, 21, 22]].length ∧
      ∀ b ∈ trace, b.IndexInv :=
  C1_index_invariant_after_every_call 8 16 (by decide) (by decide) _

/-- C2, the claim as stated fails: on a buffer that already holds the readable
byte `1`, `bufferAppend([2], 1)` followed by `bufferRetrieveAsString(1)` returns
a block that starts with `1`, the oldest readable byte, not with the appended
`2`.  That buffer is the one `bufferInit(0, 4)` and `bufferAppend([1], 1)`
produce. -/
theorem C2_counterexample :
    (bufferInit true true 0 4).bind (bufferAppend true [1] 1) = some oneByteBuf ∧
      oneByteBuf.IndexInv ∧ oneByteBuf.Allocated ∧
      ∃ buf1 block buf2,
        bufferAppend true [2] ([2] : List Byte).length oneByteBuf = some buf1 ∧
        bufferRetrieveAsString ([2] : List Byte).length buf1 = some (block, buf2) ∧
        block.take ([2] : List Byte).length = [1] ∧
        block.take ([2] : List Byte).length ≠ [2] :=
  ⟨by decide, by decide, by decide, _, _, _, rfl, rfl, by decide, by decide⟩

/-- C2 as amended: for a buffer satisfying the index invariant and a byte
sequence `d`, `bufferAppend(d, len(d))` followed by
`bufferRetrieveAsString(len(d))` returns a block whose first `len(d)` bytes are
the first `len(d)` bytes of the old readable sequence followed by `d`; they are
exactly `d` when the buffer had no readable bytes before the append. -/
theorem C2_append_then_retrieve_oldest_first (buf : Buffer) (d : List Byte)
    (hi : buf.IndexInv) (ha : buf.Allocated) :
    ∃ buf1 block buf2,
      bufferAppend true d d.length buf = some buf1 ∧
      bufferRetrieveAsString d.length buf1 = some (block, buf2) ∧
      block.take d.length = (buf.readable ++ d).take d.length ∧
      (buf.readIndex_ = buf.writeIndex_ → block.take d.length = d) := by
  obtain ⟨buf1, happ, hi1, ha1, hr1, _⟩ :=
    bufferAppend_ok d d.length buf hi ha (Nat.le_refl _)
  rw [List.take_length] at hr1
  have hblock : (buf1.readable.take d.length ++ [0]).take d.length
      = (buf.readable ++ d).take d.length := by
    rw [hr1, List.take_append_of_le_length
      (by simp only [List.length_take, List.length_append]; omega),
      List.take_take, Nat.min_self]
  refine ⟨buf1, _, _, happ, bufferRetrieveAsString_ok d.length buf1 hi1 ha1, hblock, ?_⟩
  intro hempty
  rw [hblock]
  have hnil : buf.readable = [] := by
    simp [Buffer.readable, hempty]
  simp [hnil]

/-- Witness of the amended C2 on the buffer holding the readable byte `1`, with
`d = [2, 3]`. -/
theorem C2_append_then_retrieve_oldest_first_witness :
    ∃ buf1 block buf2,
      bufferAppend true [2, 3] ([2, 3] : List Byte).length oneByteBuf = some buf1 ∧
      bufferRetrieveAsString ([2, 3] : List Byte).length buf1 = some (block, buf2) ∧
      block.take ([2, 3] : List Byte).length
        = (oneByteBuf.readable ++ [2, 3]).take ([2, 3] : List Byte).length ∧
      (oneByteBuf.readIndex_ = oneByteBuf.writeIndex_ →
        block.take ([2, 3] : List Byte).length = [2, 3]) :=
  C2_append_then_retrieve_oldest_first oneByteBuf [2, 3] (by decide) (by decide)

/-- C3, the claim as stated fails: on the buffer holding three readable bytes
(`capacity_ = 8`, two writable bytes, one prependable byte),
`ensureWriteBytes(SIZE_MAX)` takes the growth branch, the `size_t` sum
`8 + (SIZE_MAX - 2)` of Buffer.cpp:79 wraps to 5, a block of 5 bytes is
allocated and the `memcpy` of the old 8 bytes runs outside it: the call does not
complete with `SIZE_MAX` writable bytes. -/
theorem C3_counterexample :
    threeByteBuf.IndexInv ∧ threeByteBuf.Allocated ∧
      bufferPrependBytes threeByteBuf + bufferWriteableBytes threeByteBuf < sizeMax ∧
      (threeByteBuf.capacity_ + (sizeMax - bufferWriteableBytes threeByteBuf)) % sizeModulus
        = 5 ∧
      memcpy (zeroed 5) 0 threeByteBuf.buffer_ 0 threeByteBuf.capacity_ = none ∧
      ensureWriteBytesSizeT true sizeMax threeByteBuf = none ∧
      ¬ ∃ buf1, ensureWriteBytesSizeT true sizeMax threeByteBuf = some buf1 ∧
        sizeMax ≤ buf1.capacity_ - buf1.writeIndex_ := by
  have hrun : ensureWriteBytesSizeT true sizeMax threeByteBuf = none := by decide
  refine ⟨by decide, by decide, by decide, by decide, by decide, hrun, ?_⟩
  rintro ⟨buf1, h, -⟩
  rw [hrun] at h
  exact Option.noConfusion h

/-- C3 as amended: for a buffer satisfying the index invariant and every `n`
for which the sum `capacity_ + (n - writable)` of the growth branch does not
exceed `SIZE_MAX` (a condition only when prependable + writable < `n`),
`ensureWriteBytes(n)` (allocation succeeding) runs to completion, afterwards
the writable byte count `capacity_ - writeIndex_` is at least `n`, the readable
byte sequence `buffer_[readIndex_ .. writeIndex_)` is the same sequence, in the
same order, as before the call, and the buffer still satisfies the index
invariant with `buffer_` a block of `capacity_` bytes. -/
theorem C3_ensureWriteBytes_room_and_readable (buf : Buffer) (n : Nat)
    (hi : buf.IndexInv) (ha : buf.Allocated)
    (hfit : bufferPrependBytes buf + bufferWriteableBytes buf < n →
      buf.capacity_ + (n - bufferWriteableBytes buf) ≤ sizeMax) :
    ∃ buf1, ensureWriteBytesSizeT true n buf = some buf1 ∧
      n ≤ buf1.capacity_ - buf1.writeIndex_ ∧
      (buf1.buffer_.drop buf1.readIndex_).take (buf1.writeIndex_ - buf1.readIndex_)
        = (buf.buffer_.drop buf.readIndex_).take (buf.writeIndex_ - buf.readIndex_) ∧
      buf1.IndexInv ∧ buf1.Allocated := by
  obtain ⟨buf1, he, hi1, ha1, hw, hr, _⟩ := ensureWriteBytes_ok n buf hi ha
  rw [← ensureWriteBytesSizeT_eq true n buf hfit] at he
  exact ⟨buf1, he, hw, hr, hi1, ha1⟩

/-- Witness of the amended C3: the one-byte buffer asked for ten writable
bytes, which takes the growth branch. -/
theorem C3_ensureWriteBytes_room_and_readable_witness :
    ∃ buf1, ensureWriteBytesSizeT true 10 oneByteBuf = some buf1 ∧
      10 ≤ buf1.capacity_ - buf1.writeIndex_ ∧
      (buf1.buffer_.drop buf1.readIndex_).take (buf1.writeIndex_ - buf1.readIndex_)
        = (oneByteBuf.buffer_.drop oneByteBuf.readIndex_).take
            (oneByteBuf.writeIndex_ - oneByteBuf.readIndex_) ∧
      buf1.IndexInv ∧ buf1.Allocated :=
  C3_ensureWriteBytes_room_and_readable oneByteBuf 10 (by decide) (by decide) (by decide)

/-- C4: for a buffer satisfying the index invariant and a byte sequence `data`
of length `len`, `bufferAppend(data, len)` (allocation succeeding) runs to
completion; afterwards the readable byte sequence is the old readable sequence
followed by `data`, the readable byte count has grown by exactly `len`, and
`headSpace_` is unchanged. -/
theorem C4_bufferAppend_extends_readable (buf : Buffer) (data : List Byte)
    (hi : buf.IndexInv) (ha : buf.Allocated) :
    ∃ buf1, bufferAppend true data data.length buf = some buf1 ∧
      buf1.readable = buf.readable ++ data ∧
      bufferReadableBytes buf1 = bufferReadableBytes buf + data.length ∧
      buf1.headSpace_ = buf.headSpace_ := by
  obtain ⟨buf1, happ, hi1, ha1, hr1, hh1⟩ :=
    bufferAppend_ok data data.length buf hi ha (Nat.le_refl _)
  rw [List.take_length] at hr1
  refine ⟨buf1, happ, hr1, ?_, hh1⟩
  rw [← readable_length buf1 hi1 ha1, ← readable_length buf hi ha, hr1, List.length_append]

/-- Witness of C4: three bytes appended to the one-byte buffer. -/
theorem C4_bufferAppend_extends_readable_witness :
    ∃ buf1, bufferAppend true [7, 8, 9] ([7, 8, 9] : List Byte).length oneByteBuf = some buf1 ∧
      buf1.readable = oneByteBuf.readable ++ [7, 8, 9] ∧
      bufferReadableBytes buf1
        = bufferReadableBytes oneByteBuf + ([7, 8, 9] : List Byte).length ∧
      buf1.headSpace_ = oneByteBuf.headSpace_ :=
  C4_bufferAppend_extends_readable oneByteBuf [7, 8, 9] (by decide) (by decide)

/-- C5: for a buffer satisfying the index invariant and every `n`,
`bufferRetrieve(n)` consumes exactly `min(n, readable)` bytes: the readable
sequence afterwards is the old one with its first `min(n, readable)` bytes
dropped, and when `n` is smaller than the readable count `readIndex_` grows by
exactly `n` while `writeIndex_`, `capacity_` and the stored bytes are
unchanged. -/
theorem C5_bufferRetrieve_consumes_min (buf : Buffer) (n : Nat)
    (hi : buf.IndexInv) (ha : buf.Allocated) :
    (bufferRetrieve n buf).readable
        = buf.readable.drop (min n (bufferReadableBytes buf)) ∧
      bufferReadableBytes (bufferRetrieve n buf)
        = bufferReadableBytes buf - min n (bufferReadableBytes buf) ∧
      (n < bufferReadableBytes buf →
        (bufferRetrieve n buf).readIndex_ = buf.readIndex_ + n ∧
        (bufferRetrieve n buf).writeIndex_ = buf.writeIndex_ ∧
        (bufferRetrieve n buf).capacity_ = buf.capacity_ ∧
        (bufferRetrieve n buf).buffer_ = buf.buffer_) := by
  have hr := bufferRetrieve_readable n buf hi ha
  refine ⟨hr, ?_, ?_⟩
  · rw [← readable_length _ (bufferRetrieve_indexInv n buf hi)
      (bufferRetrieve_allocated n buf ha), hr, List.length_drop, readable_length buf hi ha]
  · intro hn
    have hn2 : ¬ n ≥ bufferReadableBytes buf := by omega
    simp only [bufferRetrieve, hn2, if_false, and_self]

/-- Witness of C5: two of the three readable bytes retrieved. -/
theorem C5_bufferRetrieve_consumes_min_witness :
    (bufferRetrieve 2 threeByteBuf).readable
        = threeByteBuf.readable.drop (min 2 (bufferReadableBytes threeByteBuf)) ∧
      bufferReadableBytes (bufferRetrieve 2 threeByteBuf)
        = bufferReadableBytes threeByteBuf - min 2 (bufferReadableBytes threeByteBuf) ∧
      (2 < bufferReadableBytes threeByteBuf →
        (bufferRetrieve 2 threeByteBuf).readIndex_ = threeByteBuf.readIndex_ + 2 ∧
        (bufferRetrieve 2 threeByteBuf).writeIndex_ = threeByteBuf.writeIndex_ ∧
        (bufferRetrieve 2 threeByteBuf).capacity_ = threeByteBuf.capacity_ ∧
        (bufferRetrieve 2 threeByteBuf).buffer_ = threeByteBuf.buffer_) :=
  C5_bufferRetrieve_consumes_min threeByteBuf 2 (by decide) (by decide)

/-- C6: for a buffer satisfying the index invariant and every `n` greater than
or equal to the readable byte count, `bufferRetrieve(n)` sets `readIndex_` and
`writeIndex_` to `headSpace_`, so that readable and prependable become 0 and
writable becomes `capacity_ - headSpace_`, and leaves `capacity_` and
`headSpace_` unchanged.  The call has no failure outcome: `bufferRetrieve`
returns a buffer for every input. -/
theorem C6_bufferRetrieve_clamps (buf : Buffer) (n : Nat) (hi : buf.IndexInv)
    (hn : n ≥ bufferReadableBytes buf) :
    (bufferRetrieve n buf).readIndex_ = buf.headSpace_ ∧
      (bufferRetrieve n buf).writeIndex_ = buf.headSpace_ ∧
      bufferReadableBytes (bufferRetrieve n buf) = 0 ∧
      bufferPrependBytes (bufferRetrieve n buf) = 0 ∧
      bufferWriteableBytes (bufferRetrieve n buf) = buf.capacity_ - buf.headSpace_ ∧
      (bufferRetrieve n buf).capacity_ = buf.capacity_ ∧
      (bufferRetrieve n buf).headSpace_ = buf.headSpace_ ∧
      (bufferRetrieve n buf).IndexInv := by
  have hinv := bufferRetrieve_indexInv n buf hi
  simp only [bufferRetrieve, hn, if_true] at hinv ⊢
  exact ⟨rfl, rfl, by simp [bufferRetrieveAll, bufferReadableBytes],
    by simp [bufferRetrieveAll, bufferPrependBytes], rfl, rfl, rfl, hinv⟩

/-- Witness of C6: seven bytes asked of a buffer holding three. -/
theorem C6_bufferRetrieve_clamps_witness :
    (bufferRetrieve 7 threeByteBuf).readIndex_ = threeByteBuf.headSpace_ ∧
      (bufferRetrieve 7 threeByteBuf).writeIndex_ = threeByteBuf.headSpace_ ∧
      bufferReadableBytes (bufferRetrieve 7 threeByteBuf) = 0 ∧
      bufferPrependBytes (bufferRetrieve 7 threeByteBuf) = 0 ∧
      bufferWriteableBytes (bufferRetrieve 7 threeByteBuf)
        = threeByteBuf.capacity_ - threeByteBuf.headSpace_ ∧
      (bufferRetrieve 7 threeByteBuf).capacity_ = threeByteBuf.capacity_ ∧
      (bufferRetrieve 7 threeByteBuf).headSpace_ = threeByteBuf.headSpace_ ∧
      (bufferRetrieve 7 threeByteBuf).IndexInv :=
  C6_bufferRetrieve_clamps threeByteBuf 7 (by decide) (by decide)

/-- C7: for a buffer satisfying the index invariant and every `n`,
`bufferRetrieveAsString(n)` runs to completion and returns a block whose first
`min(n, readable)` bytes are the first `min(n, readable)` bytes of the readable
region before the call, and it leaves the buffer in exactly the state that
`bufferRetrieve(n)` produces from the same starting state. -/
theorem C7_bufferRetrieveAsString_copy_then_retrieve (buf : Buffer) (n : Nat)
    (hi : buf.IndexInv) (ha : buf.Allocated) :
    ∃ block, bufferRetrieveAsString n buf = some (block, bufferRetrieve n buf) ∧
      block.take (min n (bufferReadableBytes buf))
        = buf.readable.take (min n (bufferReadableBytes buf)) := by
  refine ⟨_, bufferRetrieveAsString_ok n buf hi ha, ?_⟩
  have hl := readable_length buf hi ha
  rw [List.take_append_of_le_length (by simp only [List.length_take]; omega),
    List.take_take]
  congr 1
  omega

/-- Witness of C7: two of the three readable bytes copied out. -/
theorem C7_bufferRetrieveAsString_copy_then_retrieve_witness :
    ∃ block, bufferRetrieveAsString 2 threeByteBuf
        = some (block, bufferRetrieve 2 threeByteBuf) ∧
      block.take (min 2 (bufferReadableBytes threeByteBuf))
        = threeByteBuf.readable.take (min 2 (bufferReadableBytes threeByteBuf)) :=
  C7_bufferRetrieveAsString_copy_then_retrieve threeByteBuf 2 (by decide) (by decide)

/-- C8: for a buffer satisfying the index invariant,
`bufferRetrieveAllAsString(buf)` and
`bufferRetrieveAsString(bufferReadableBytes(buf), buf)` both run to completion,
return equal byte blocks and leave the buffer in equal final states. -/
theorem C8_retrieveAll_eq_retrieve_readable (buf : Buffer) (hi : buf.IndexInv)
    (ha : buf.Allocated) :
    ∃ block final, bufferRetrieveAllAsString buf = some (block, final) ∧
      bufferRetrieveAsString (bufferReadableBytes buf) buf = some (block, final) := by
  refine ⟨_, _, bufferRetrieveAllAsString_ok buf hi ha, ?_⟩
  simp only [bufferRetrieveAsString, ge_iff_le, Nat.le_refl, if_true]
  exact bufferRetrieveAllAsString_ok buf hi ha

/-- Witness of C8 on the buffer holding three readable bytes. -/
theorem C8_retrieveAll_eq_retrieve_readable_witness :
    ∃ block final, bufferRetrieveAllAsString threeByteBuf = some (block, final) ∧
      bufferRetrieveAsString (bufferReadableBytes threeByteBuf) threeByteBuf
        = some (block, final) :=
  C8_retrieveAll_eq_retrieve_readable threeByteBuf (by decide) (by decide)

/-- C9: when the underlying `readv` returns a count `n ≤ 0` (0, end of file,
included), `bufferReadFd` returns -1, stores the value of `errno` in
`*errorNum`, and leaves `readIndex_`, `writeIndex_`, `capacity_`, `headSpace_`
and the stored bytes unchanged. -/
theorem C9_bufferReadFd_failure (mallocOk : Bool) (sys : SysCall) (buf : Buffer)
    (errorNum : Int) (hret : sys.ret ≤ 0) :
    bufferReadFd mallocOk sys buf errorNum
      = some { ret := -1, errorNum := sys.errno, buf := buf } := by
  simp [bufferReadFd, readv, hret]

/-- Witness of C9: end of file on the buffer holding three readable bytes. -/
theorem C9_bufferReadFd_failure_witness :
    bufferReadFd true eofCall threeByteBuf 0
      = some { ret := -1, errorNum := eofCall.errno, buf := threeByteBuf } :=
  C9_bufferReadFd_failure true eofCall threeByteBuf 0 (by decide)

/-- C10: for a buffer satisfying the index invariant and a successful `readv`
of `n > 0` bytes, `n` no larger than the total length of the destinations
offered (the writable region filled first, the 65536-byte scratch block
second), `bufferReadFd` (allocation succeeding) returns `n`, and the readable
byte sequence afterwards is the old readable sequence followed by the `n`
bytes read, in order: no byte read is dropped. -/
theorem C10_bufferReadFd_keeps_every_byte (sys : SysCall) (buf : Buffer)
    (errorNum : Int) (hi : buf.IndexInv) (ha : buf.Allocated) (hpos : 0 < sys.ret)
    (hbytes : sys.bytes.length = sys.ret.toNat)
    (hfit : sys.bytes.length ≤ readFdOffered buf) :
    ∃ res, bufferReadFd true sys buf errorNum = some res ∧ res.ret = sys.ret ∧
      res.buf.readable = buf.readable ++ sys.bytes := by
  obtain ⟨buf2, hrun, _, _, hr, _⟩ := bufferReadFd_ok sys buf errorNum hi ha hpos hbytes hfit
  exact ⟨_, hrun, rfl, hr⟩

/-- Witness of C10: four bytes read into a buffer with two writable bytes, so
that two of them pass through the scratch block. -/
theorem C10_bufferReadFd_keeps_every_byte_witness :
    ∃ res, bufferReadFd true fourByteCall threeByteBuf 0 = some res ∧
      res.ret = fourByteCall.ret ∧
      res.buf.readable = threeByteBuf.readable ++ fourByteCall.bytes :=
  C10_bufferReadFd_keeps_every_byte fourByteCall threeByteBuf 0 (by decide) (by decide)
    (by decide) (by decide) (by decide)

/-- C12: when the underlying `write` returns a count `n ≤ 0`, `bufferWriteFd`
returns -1, stores the value of `errno` in `*errorNum`, and leaves `readIndex_`,
`writeIndex_`, `capacity_`, `headSpace_` and the stored bytes unchanged. -/
theorem C12_bufferWriteFd_failure (sys : SysCall) (buf : Buffer) (errorNum : Int)
    (hret : sys.ret ≤ 0) :
    (bufferWriteFd sys buf errorNum).ret = -1 ∧
      (bufferWriteFd sys buf errorNum).errorNum = sys.errno ∧
      (bufferWriteFd sys buf errorNum).buf = buf := by
  simp [bufferWriteFd, hret]

/-- Witness of C12: a failed write on the buffer holding three readable bytes. -/
theorem C12_bufferWriteFd_failure_witness :
    (bufferWriteFd failedWrite threeByteBuf 0).ret = -1 ∧
      (bufferWriteFd failedWrite threeByteBuf 0).errorNum = failedWrite.errno ∧
      (bufferWriteFd failedWrite threeByteBuf 0).buf = threeByteBuf :=
  C12_bufferWriteFd_failure failedWrite threeByteBuf 0 (by decide)

/-- C13: for a buffer satisfying the index invariant and a write result `n` with
`0 < n < readable`, `bufferWriteFd` returns `n`, increases `readIndex_` by
exactly `n`, leaves `writeIndex_`, `capacity_` and `*errorNum` unchanged, and the
readable byte sequence afterwards is the old one with its first `n` bytes
dropped. -/
theorem C13_bufferWriteFd_short_write (sys : SysCall) (buf : Buffer) (errorNum : Int)
    (hi : buf.IndexInv) (ha : buf.Allocated) (hpos : 0 < sys.ret)
    (hlt : sys.ret.toNat < bufferReadableBytes buf) :
    (bufferWriteFd sys buf errorNum).ret = sys.ret ∧
      (bufferWriteFd sys buf errorNum).errorNum = errorNum ∧
      (bufferWriteFd sys buf errorNum).buf.readIndex_ = buf.readIndex_ + sys.ret.toNat ∧
      (bufferWriteFd sys buf errorNum).buf.writeIndex_ = buf.writeIndex_ ∧
      (bufferWriteFd sys buf errorNum).buf.capacity_ = buf.capacity_ ∧
      (bufferWriteFd sys buf errorNum).buf.readable = buf.readable.drop sys.ret.toNat := by
  have hnot : ¬ sys.ret ≤ 0 := by omega
  have hn2 : ¬ sys.ret.toNat ≥ bufferReadableBytes buf := by omega
  have hr := bufferRetrieve_readable sys.ret.toNat buf hi ha
  have hmin : min sys.ret.toNat (bufferReadableBytes buf) = sys.ret.toNat := by omega
  rw [hmin] at hr
  simp only [bufferWriteFd, hnot, if_false, hr]
  simp only [bufferRetrieve, hn2, if_false, and_self]

/-- Witness of C13: two of three readable bytes written. -/
theorem C13_bufferWriteFd_short_write_witness :
    (bufferWriteFd shortWrite threeByteBuf 0).ret = shortWrite.ret ∧
      (bufferWriteFd shortWrite threeByteBuf 0).errorNum = 0 ∧
      (bufferWriteFd shortWrite threeByteBuf 0).buf.readIndex_
        = threeByteBuf.readIndex_ + shortWrite.ret.toNat ∧
      (bufferWriteFd shortWrite threeByteBuf 0).buf.writeIndex_ = threeByteBuf.writeIndex_ ∧
      (bufferWriteFd shortWrite threeByteBuf 0).buf.capacity_ = threeByteBuf.capacity_ ∧
      (bufferWriteFd shortWrite threeByteBuf 0).buf.readable
        = threeByteBuf.readable.drop shortWrite.ret.toNat :=
  C13_bufferWriteFd_short_write shortWrite threeByteBuf 0 (by decide) (by decide)
    (by decide) (by decide)

/-- C14: for `headSize ≥ 0` and `bodySize ≥ 0` with both allocations succeeding,
`bufferInit(headSize, bodySize)` returns a buffer with `headSpace_ = headSize`,
`capacity_ = headSize + bodySize` and `readIndex_ = writeIndex_ = headSize`, so
that readable bytes = 0, prependable bytes = 0 and writable bytes = `bodySize`;
its storage is `capacity_` zero bytes. -/
theorem C14_bufferInit_layout (headSize bodySize : Int) (hh : 0 ≤ headSize)
    (hb : 0 ≤ bodySize) :
    ∃ buf, bufferInit true true headSize bodySize = some buf ∧
      (buf.headSpace_ : Int) = headSize ∧
      (buf.capacity_ : Int) = headSize + bodySize ∧
      (buf.readIndex_ : Int) = headSize ∧
      (buf.writeIndex_ : Int) = headSize ∧
      bufferReadableBytes buf = 0 ∧
      bufferPrependBytes buf = 0 ∧
      (bufferWriteableBytes buf : Int) = bodySize ∧
      buf.buffer_ = zeroed buf.capacity_ := by
  refine ⟨_, rfl, ?_, ?_, ?_, ?_, ?_, ?_, ?_, rfl⟩
  · show ((headSize.toNat : Nat) : Int) = headSize
    omega
  · show (((headSize + bodySize).toNat : Nat) : Int) = headSize + bodySize
    omega
  · show ((headSize.toNat : Nat) : Int) = headSize
    omega
  · show ((headSize.toNat : Nat) : Int) = headSize
    omega
  · show headSize.toNat - headSize.toNat = 0
    omega
  · show headSize.toNat - headSize.toNat = 0
    omega
  · show (((headSize + bodySize).toNat - headSize.toNat : Nat) : Int) = bodySize
    omega

/-- Witness of C14 at `bufferInit(8, 16)`. -/
theorem C14_bufferInit_layout_witness :
    ∃ buf, bufferInit true true 8 16 = some buf ∧
      (buf.headSpace_ : Int) = 8 ∧
      (buf.capacity_ : Int) = 8 + 16 ∧
      (buf.readIndex_ : Int) = 8 ∧
      (buf.writeIndex_ : Int) = 8 ∧
      bufferReadableBytes buf = 0 ∧
      bufferPrependBytes buf = 0 ∧
      (bufferWriteableBytes buf : Int) = 16 ∧
      buf.buffer_ = zeroed buf.capacity_ :=
  C14_bufferInit_layout 8 16 (by decide) (by decide)

/-- C15: the scenario of the spec, for any ten bytes `d1` and any twelve bytes
`d2`.  `bufferInit(8, 16)` gives `capacity_ = 24` and `readIndex_ = writeIndex_
= 8`; appending `d1` gives `writeIndex_ = 18` and readable = 10;
`bufferRetrieve(5)` gives `readIndex_ = 13`, readable = 5 and prependable = 5;
appending `d2` then takes the growth branch (prependable + writable < 12) and
leaves `capacity_ ≥ 30`, the readable sequence being the last five bytes of
`d1` followed by `d2`. -/
theorem C15_scenario_8_16 (d1 d2 : List Byte) (h1 : d1.length = 10)
    (h2 : d2.length = 12) :
    ∃ b0 b1 b3, bufferInit true true 8 16 = some b0 ∧
      b0.capacity_ = 24 ∧ b0.readIndex_ = 8 ∧ b0.writeIndex_ = 8 ∧
      bufferAppend true d1 10 b0 = some b1 ∧
      b1.writeIndex_ = 18 ∧ bufferReadableBytes b1 = 10 ∧
      (bufferRetrieve 5 b1).readIndex_ = 13 ∧
      bufferReadableBytes (bufferRetrieve 5 b1) = 5 ∧
      bufferPrependBytes (bufferRetrieve 5 b1) = 5 ∧
      bufferPrependBytes (bufferRetrieve 5 b1)
        + bufferWriteableBytes (bufferRetrieve 5 b1) < 12 ∧
      bufferAppend true d2 12 (bufferRetrieve 5 b1) = some b3 ∧
      30 ≤ b3.capacity_ ∧
      b3.readable = d1.drop 5 ++ d2 := by
  have hi0 : (Buffer.mk (zeroed 24) 24 8 8 8).IndexInv := by decide
  have ha0 : (Buffer.mk (zeroed 24) 24 8 8 8).Allocated := zeroed_length 24
  obtain ⟨b1, happ1, hi1, ha1, hr1, hh1, -, hc1⟩ :=
    bufferAppend_indices d1 10 (Buffer.mk (zeroed 24) 24 8 8 8) hi0 ha0 (by omega)
  obtain ⟨hcap1, hrd1, hwr1⟩ := hc1 (by decide)
  have hcap1 : b1.capacity_ = 24 := hcap1
  have hrd1 : b1.readIndex_ = 8 := hrd1
  have hwr1 : b1.writeIndex_ = 18 := hwr1
  have hh1 : b1.headSpace_ = 8 := hh1
  have hr1 : b1.readable = d1 := by
    rw [hr1, ← h1, List.take_length]
    rfl
  have hrb1 : bufferReadableBytes b1 = 10 := by
    simp only [bufferReadableBytes, hwr1, hrd1]
  have hb2 : bufferRetrieve 5 b1 = { b1 with readIndex_ := b1.readIndex_ + 5 } := by
    simp [bufferRetrieve, hrb1]
  have hi2 := bufferRetrieve_indexInv 5 b1 hi1
  have ha2 := bufferRetrieve_allocated 5 b1 ha1
  have hr2 := bufferRetrieve_readable 5 b1 hi1 ha1
  rw [hrb1, hr1] at hr2
  have hrd2 : (bufferRetrieve 5 b1).readIndex_ = 13 := by
    rw [hb2]
    show b1.readIndex_ + 5 = 13
    omega
  have hwr2 : (bufferRetrieve 5 b1).writeIndex_ = 18 := by
    rw [hb2]
    exact hwr1
  have hcap2 : (bufferRetrieve 5 b1).capacity_ = 24 := by
    rw [hb2]
    exact hcap1
  have hh2 : (bufferRetrieve 5 b1).headSpace_ = 8 := by
    rw [hb2]
    exact hh1
  have hgrow : bufferPrependBytes (bufferRetrieve 5 b1)
      + bufferWriteableBytes (bufferRetrieve 5 b1) < 12 := by
    simp only [bufferPrependBytes, bufferWriteableBytes, hrd2, hwr2, hcap2, hh2]
    omega
  obtain ⟨b3, happ3, -, -, hr3, -, hc3, -⟩ :=
    bufferAppend_indices d2 12 (bufferRetrieve 5 b1) hi2 ha2 (by omega)
  obtain ⟨hcap3, -, -⟩ := hc3 hgrow
  refine ⟨_, b1, b3, rfl, rfl, rfl, rfl, happ1, hwr1, hrb1, hrd2, ?_, ?_, hgrow, happ3,
    ?_, ?_⟩
  · simp only [bufferReadableBytes, hrd2, hwr2]
  · simp only [bufferPrependBytes, hrd2, hh2]
  · simp only [bufferWriteableBytes, hwr2, hcap2] at hcap3
    omega
  · rw [hr3, hr2, ← h2, List.take_length]
    rfl

/-- Witness of C15 with the bytes 1 to 10 and 11 to 22. -/
theorem C15_scenario_8_16_witness :
    ∃ b0 b1 b3, bufferInit true true 8 16 = some b0 ∧
      b0.capacity_ = 24 ∧ b0.readIndex_ = 8 ∧ b0.writeIndex_ = 8 ∧
      bufferAppend true [1, 2, 3, 4, 5, 6, 7, 8, 9, 10] 10 b0 = some b1 ∧
      b1.writeIndex_ = 18 ∧ bufferReadableBytes b1 = 10 ∧
      (bufferRetrieve 5 b1).readIndex_ = 13 ∧
      bufferReadableBytes (bufferRetrieve 5 b1) = 5 ∧
      bufferPrependBytes (bufferRetrieve 5 b1) = 5 ∧
      bufferPrependBytes (bufferRetrieve 5 b1)
        + bufferWriteableBytes (bufferRetrieve 5 b1) < 12 ∧
      bufferAppend true [11, 12, 13, 14, 15, 16, 17, 18, 19, 20, 21, 22] 12
        (bufferRetrieve 5 b1) = some b3 ∧
      30 ≤ b3.capacity_ ∧
      b3.readable = List.drop 5 [1, 2, 3, 4, 5, 6, 7, 8, 9, 10]
        ++ [11, 12, 13, 14, 15, 16, 17, 18, 19, 20, 21, 22] :=
  C15_scenario_8_16 [1, 2, 3, 4, 5, 6, 7, 8, 9, 10]
    [11, 12, 13, 14, 15, 16, 17, 18, 19, 20, 21, 22] (by decide) (by decide)

/-- C16, the claim as stated fails: on the buffer holding three readable bytes
(`capacity_ = 8`, two writable bytes, one prependable byte)
`ensureWriteBytes(SIZE_MAX - 1)` has prependable + writable < `n`, yet the
`size_t` sum `8 + (SIZE_MAX - 1 - 2)` of Buffer.cpp:79 wraps to 4: the new
capacity is not the old one increased by `n - writable`, it is below the old
one, and the `memcpy` of the old 8 bytes runs outside the new block of 4. -/
theorem C16_counterexample :
    threeByteBuf.IndexInv ∧ threeByteBuf.Allocated ∧
      bufferPrependBytes threeByteBuf + bufferWriteableBytes threeByteBuf < sizeMax - 1 ∧
      (threeByteBuf.capacity_ + (sizeMax - 1 - bufferWriteableBytes threeByteBuf))
        % sizeModulus = 4 ∧
      (threeByteBuf.capacity_ + (sizeMax - 1 - bufferWriteableBytes threeByteBuf))
        % sizeModulus < threeByteBuf.capacity_ ∧
      bufferExpandByestSizeT true (sizeMax - 1 - bufferWriteableBytes threeByteBuf)
        threeByteBuf = none ∧
      ¬ ∃ buf1, ensureWriteBytesSizeT true (sizeMax - 1) threeByteBuf = some buf1 ∧
        threeByteBuf.capacity_ + (sizeMax - 1 - bufferWriteableBytes threeByteBuf)
          ≤ buf1.capacity_ := by
  have hrun : ensureWriteBytesSizeT true (sizeMax - 1) threeByteBuf = none := by decide
  refine ⟨by decide, by decide, by decide, by decide, by decide, by decide, ?_⟩
  rintro ⟨buf1, h, -⟩
  rw [hrun] at h
  exact Option.noConfusion h

/-- C16 as amended: for a buffer satisfying the index invariant and every `n`
with prependable + writable < `n` for which the sum `capacity_ + (n - writable)`
does not exceed `SIZE_MAX`, `ensureWriteBytes(n)` (allocation succeeding)
increases `capacity_` by at least `n - writable` (by exactly that much), leaves
`readIndex_`, `writeIndex_` and `headSpace_` unchanged, and leaves every byte at
the offsets `0 .. old capacity_ - 1` at the same offset with the same value;
the buffer still satisfies the index invariant with `buffer_` a block of
`capacity_` bytes. -/
theorem C16_growth_frame (buf : Buffer) (n : Nat) (hi : buf.IndexInv)
    (ha : buf.Allocated)
    (hg : bufferPrependBytes buf + bufferWriteableBytes buf < n)
    (hfit : buf.capacity_ + (n - bufferWriteableBytes buf) ≤ sizeMax) :
    ∃ buf1, ensureWriteBytesSizeT true n buf = some buf1 ∧ buf1.IndexInv ∧
      buf1.Allocated ∧
      buf.capacity_ + (n - bufferWriteableBytes buf) ≤ buf1.capacity_ ∧
      buf1.capacity_ = buf.capacity_ + (n - bufferWriteableBytes buf) ∧
      buf1.readIndex_ = buf.readIndex_ ∧
      buf1.writeIndex_ = buf.writeIndex_ ∧
      buf1.headSpace_ = buf.headSpace_ ∧
      ∀ i, i < buf.capacity_ → buf1.buffer_[i]? = buf.buffer_[i]? := by
  have hlen : buf.buffer_.length = buf.capacity_ := ha
  obtain ⟨h1, h2, h3⟩ := hi
  have hrun : ensureWriteBytesSizeT true n buf
      = some (grown (n - bufferWriteableBytes buf) buf) := by
    rw [ensureWriteBytesSizeT_eq true n buf (fun _ => hfit)]
    exact ensureWriteBytes_grow n buf ha hg
  refine ⟨grown (n - bufferWriteableBytes buf) buf, hrun, ⟨h1, h2, ?_⟩, ?_,
    Nat.le_refl _, rfl, rfl, rfl, rfl, ?_⟩
  · show buf.writeIndex_ ≤ buf.capacity_ + _
    omega
  · show (buf.buffer_ ++ zeroed _).length = buf.capacity_ + _
    rw [List.length_append, zeroed_length, hlen]
  · intro i hlt
    show (buf.buffer_ ++ zeroed _)[i]? = buf.buffer_[i]?
    exact List.getElem?_append_left (by omega)

/-- Witness of the amended C16: ten writable bytes asked of the buffer holding
three readable bytes, which has one prependable and two writable bytes. -/
theorem C16_growth_frame_witness :
    ∃ buf1, ensureWriteBytesSizeT true 10 threeByteBuf = some buf1 ∧ buf1.IndexInv ∧
      buf1.Allocated ∧
      threeByteBuf.capacity_ + (10 - bufferWriteableBytes threeByteBuf) ≤ buf1.capacity_ ∧
      buf1.capacity_ = threeByteBuf.capacity_ + (10 - bufferWriteableBytes threeByteBuf) ∧
      buf1.readIndex_ = threeByteBuf.readIndex_ ∧
      buf1.writeIndex_ = threeByteBuf.writeIndex_ ∧
      buf1.headSpace_ = threeByteBuf.headSpace_ ∧
      ∀ i, i < threeByteBuf.capacity_ → buf1.buffer_[i]? = threeByteBuf.buffer_[i]? :=
  C16_growth_frame threeByteBuf 10 (by decide) (by decide) (by decide) (by decide)

/-- C17: for a buffer satisfying the index invariant and every `n` with
prependable + writable ≥ `n`, `ensureWriteBytes(n)` leaves `capacity_` unchanged
(no growth, no allocation), sets `readIndex_` to `headSpace_` and sets
`writeIndex_` to its old value minus the old prependable byte count; hence
`capacity_` changes in `ensureWriteBytes` only when prependable + writable <
`n`. -/
theorem C17_compaction_keeps_capacity (mallocOk : Bool) (buf : Buffer) (n : Nat)
    (hi : buf.IndexInv) (ha : buf.Allocated) :
    (n ≤ bufferPrependBytes buf + bufferWriteableBytes buf →
      ∃ buf1, ensureWriteBytes mallocOk n buf = some buf1 ∧
        buf1.capacity_ = buf.capacity_ ∧
        buf1.readIndex_ = buf.headSpace_ ∧
        buf1.writeIndex_ = buf.writeIndex_ - bufferPrependBytes buf ∧
        buf1.headSpace_ = buf.headSpace_) ∧
      (∀ buf1, ensureWriteBytes mallocOk n buf = some buf1 →
        buf1.capacity_ ≠ buf.capacity_ →
        bufferPrependBytes buf + bufferWriteableBytes buf < n) := by
  constructor
  · intro hle
    exact ⟨compacted buf, ensureWriteBytes_compact n buf hi ha mallocOk (by omega),
      rfl, rfl, rfl, rfl⟩
  · intro buf1 hrun hne
    by_contra hg
    rw [ensureWriteBytes_compact n buf hi ha mallocOk hg] at hrun
    have hbuf1 := Option.some.inj hrun
    subst hbuf1
    exact hne rfl

/-- Witness of C17: three writable bytes asked of the buffer holding three
readable bytes, which has one prependable and two writable bytes. -/
theorem C17_compaction_keeps_capacity_witness :
    (3 ≤ bufferPrependBytes threeByteBuf + bufferWriteableBytes threeByteBuf →
      ∃ buf1, ensureWriteBytes true 3 threeByteBuf = some buf1 ∧
        buf1.capacity_ = threeByteBuf.capacity_ ∧
        buf1.readIndex_ = threeByteBuf.headSpace_ ∧
        buf1.writeIndex_ = threeByteBuf.writeIndex_ - bufferPrependBytes threeByteBuf ∧
        buf1.headSpace_ = threeByteBuf.headSpace_) ∧
      (∀ buf1, ensureWriteBytes true 3 threeByteBuf = some buf1 →
        buf1.capacity_ ≠ threeByteBuf.capacity_ →
        bufferPrependBytes threeByteBuf + bufferWriteableBytes threeByteBuf < 3) :=
  C17_compaction_keeps_capacity true threeByteBuf 3 (by decide) (by decide)

/-- C18, the code against the claim: the destination count is 1 exactly when
`writeIndex_` exceeds 65536, whatever the writable byte count
`capacity_ - writeIndex_` is.  The buffer `bufferInit(0, 70000)` has 70000
writable bytes, more than the 65536-byte scratch block, and both destinations
are passed; the full buffer of 65537 bytes has no writable byte and only its
own writable region is passed. -/
theorem C18_vecCnt_tests_writeIndex :
    (∀ buf : Buffer, readFdVecCnt buf = 1 ↔ 65536 < buf.writeIndex_) ∧
      bufferInit true true 0 70000 = some wideBuf ∧
      wideBuf.IndexInv ∧ wideBuf.Allocated ∧
      65536 < bufferWriteableBytes wideBuf ∧ readFdVecCnt wideBuf = 2 ∧
      fullBuf.IndexInv ∧ fullBuf.Allocated ∧
      bufferWriteableBytes fullBuf = 0 ∧ readFdVecCnt fullBuf = 1 :=
  ⟨readFdVecCnt_eq_one, rfl, by decide, wideBuf_allocated, by decide, by decide,
    by decide, fullBuf_allocated, by decide, by decide⟩

/-- C19, the code against the claim: on the full buffer of 65537 bytes, which
satisfies the index invariant, `bufferReadFd` offers `readv` a total of 0 bytes
(no writable byte, scratch block left out because `writeIndex_ > 65536`).  No
`readv` call can then deliver a byte, and the 0 it returns is reported as a
failure: -1 with the buffer unchanged.  That buffer is the one
`bufferInit(0, 65537)` and an append of 65537 bytes produce, and the buffers
offered no byte are exactly the full ones with `writeIndex_ > 65536`. -/
theorem C19_full_buffer_offers_nothing :
    (∃ b0, bufferInit true true 0 65537 = some b0 ∧
      bufferAppend true (zeroed 65537) 65537 b0 = some fullBuf) ∧
      fullBuf.IndexInv ∧ fullBuf.Allocated ∧ readFdOffered fullBuf = 0 ∧
      (∀ buf : Buffer, buf.IndexInv →
        (readFdOffered buf = 0 ↔
          65536 < buf.writeIndex_ ∧ buf.writeIndex_ = buf.capacity_)) ∧
      (∀ (sys : SysCall) (errorNum : Int), 0 < sys.ret →
        bufferReadFd true sys fullBuf errorNum = none) ∧
      bufferReadFd true eofCall fullBuf 0
        = some { ret := -1, errorNum := eofCall.errno, buf := fullBuf } :=
  ⟨fullBuf_reachable, by decide, fullBuf_allocated, by decide, readFdOffered_eq_zero,
    bufferReadFd_fullBuf_positive, by simp [bufferReadFd, readv, eofCall]⟩

/-- C20: first in, first out.  For a buffer satisfying the index invariant with
readable sequence `r` and every finite list of byte sequences `d1, ..., dk`,
the appends `bufferAppend(d1)`, ..., `bufferAppend(dk)` in that order
(allocation succeeding, any mix of compaction and growth) run to completion,
and `bufferRetrieveAllAsString` then returns `r` followed by `d1, ..., dk`
concatenated in order (and the terminating zero byte of the block) and leaves
the buffer empty with `readIndex_ = writeIndex_ = headSpace_`. -/
theorem C20_first_in_first_out (buf : Buffer) (ds : List (List Byte))
    (hi : buf.IndexInv) (ha : buf.Allocated) :
    ∃ buf1 final, bufferAppendAll ds buf = some buf1 ∧
      bufferRetrieveAllAsString buf1
        = some (buf.readable ++ ds.flatten ++ [0], final) ∧
      final.readIndex_ = buf.headSpace_ ∧
      final.writeIndex_ = buf.headSpace_ ∧
      final.headSpace_ = buf.headSpace_ ∧
      bufferReadableBytes final = 0 := by
  obtain ⟨buf1, hrun, hi1, ha1, hr1, hh1⟩ := bufferAppendAll_ok ds buf hi ha
  refine ⟨buf1, bufferRetrieveAll buf1, hrun, ?_, hh1, hh1, hh1, ?_⟩
  · rw [← hr1]
    exact bufferRetrieveAllAsString_ok buf1 hi1 ha1
  · simp [bufferRetrieveAll, bufferReadableBytes]

/-- Witness of C20: three sequences appended to the buffer holding the readable
bytes `5, 6, 7`. -/
theorem C20_first_in_first_out_witness :
    ∃ buf1 final, bufferAppendAll [[1, 2], [], [3, 4, 5, 6]] threeByteBuf = some buf1 ∧
      bufferRetrieveAllAsString buf1
        = some (threeByteBuf.readable ++ List.flatten [[1, 2], [], [3, 4, 5, 6]] ++ [0],
            final) ∧
      final.readIndex_ = threeByteBuf.headSpace_ ∧
      final.writeIndex_ = threeByteBuf.headSpace_ ∧
      final.headSpace_ = threeByteBuf.headSpace_ ∧
      bufferReadableBytes final = 0 :=
  C20_first_in_first_out threeByteBuf [[1, 2], [], [3, 4, 5, 6]] (by decide) (by decide)

/-- C11, the code against the claim: a read of exactly as many bytes as are
writable.  The buffer holding three readable bytes has `writeIndex_ = 6`, two
writable bytes and one prependable byte; a `readv` of two bytes fits entirely
within the writable region, yet `bufferReadFd` leaves `writeIndex_ = 7`, not
`6 + 2 = 8`, and moves `readIndex_` from 3 to 2: the test `n < writable` sends
`n = writable` to the last branch, whose append of zero bytes compacts the
buffer.  `capacity_` stays 8 and no byte is lost. -/
theorem C11_exact_fill_compacts :
    threeByteBuf.IndexInv ∧ threeByteBuf.Allocated ∧
      0 < twoByteCall.ret ∧
      twoByteCall.bytes.length = twoByteCall.ret.toNat ∧
      twoByteCall.ret.toNat ≤ bufferWriteableBytes threeByteBuf ∧
      threeByteBuf.writeIndex_ + twoByteCall.ret.toNat = 8 ∧
      ∃ buf2, bufferReadFd true twoByteCall threeByteBuf 0
          = some { ret := 2, errorNum := 0, buf := buf2 } ∧
        buf2.capacity_ = 8 ∧
        buf2.readIndex_ = 2 ∧
        buf2.writeIndex_ = 7 ∧
        buf2.readable = [5, 6, 7, 1, 2] :=
  ⟨by decide, by decide, by decide, by decide, by decide, by decide,
    bufferReadFd_exact_fill twoByteCall threeByteBuf 0 (by decide) (by decide) (by decide)
      (by decide) (by decide)⟩

end Muduo
